import Mathlib

/-!
# RRT planner (`rrt2.cpp`): embedding and verified properties

The planner works on C++ `double` values.  The embedding keeps the scalar type
`F` abstract: the comparisons of the source (`<`, `<=`, `>=`) are those of a
linear order on `F` (doubles without NaN), `+`, `-`, `*` are arbitrary
operations on `F`, and the `<cmath>` / `<limits>` functions the source calls
are the fields of `DoubleOps`.  Every structural theorem below therefore holds
for any arithmetic, rounding included.  The nearest-node scan is defined for any
decidable relation `<`, and its specification is also proved from
`ComparisonLaws`, the laws that the comparisons of doubles obey with NaN
included.  `realOps` interprets the operations
exactly over the reals; it is used to run the program on concrete inputs whose
intermediate values are exactly representable doubles.

`int` values are integers; no `int` computation of the planner can overflow
(indices are bounded by `maxIterations + 1`).  Reading `tree[i]` outside the
vector is undefined behaviour in C++ and is the result `none` here.
-/

namespace RRT2

/-- The struct `Point { double x, y; }`, lines 8-11. -/
structure Point (F : Type) where
  x : F
  y : F

/-- The struct `Rectangle { double x, y, width, height; }`, lines 13-16. -/
structure Rectangle (F : Type) where
  x : F
  y : F
  width : F
  height : F

/-- The struct `Node { Point point; int parentIndex; }`, lines 34-38. -/
structure Node (F : Type) where
  point : Point F
  parentIndex : Int

/-- The library functions on `double` the source calls: `std::sqrt`, `std::pow`,
`std::atan2`, `std::cos`, `std::sin`, `std::numeric_limits<double>::max()` and
the conversion `static_cast<double>(int)`. -/
structure DoubleOps (F : Type) where
  sqrt : F → F
  pow : F → F → F
  atan2 : F → F → F
  cos : F → F
  sin : F → F
  dblMax : F
  ofInt : Int → F

/-- The private and public data members of `class RRT`. -/
structure RRT (F : Type) where
  stepSize : F
  maxIterations : Int
  tree : List (Node F)
  path : List (Point F)

/-- How the loop of `generateRRT` was left: `Found` when the branch of lines
61-66 ran (it prints "Path found!", calls `constructPath` and breaks),
`Exhausted` when the loop condition `i < maxIterations` failed. -/
inductive Outcome where
  | Found
  | Exhausted
  deriving DecidableEq, Repr

section Definitions

variable {F : Type} [LinearOrder F] [Add F] [Sub F] [Mul F]

/-- Source lines 18-22. -/
def pointInRectangle (p : Point F) (rect : Rectangle F) : Bool :=
  decide (p.x ≥ rect.x) && decide (p.x ≤ rect.x + rect.width) &&
    decide (p.y ≥ rect.y) && decide (p.y ≤ rect.y + rect.height)

/-- Source lines 24-27; the exponent `2` is the `int` literal converted to `double`. -/
def distance (m : DoubleOps F) (p1 p2 : Point F) : F :=
  m.sqrt (m.pow (p1.x - p2.x) (m.ofInt 2) + m.pow (p1.y - p2.y) (m.ofInt 2))

/-- Source lines 29-32, with `r` the value returned by the call of `std::rand()`;
`%` on `int` truncates toward zero. -/
def randomInt (r : Int) (min max : Int) : Int :=
  min + Int.tmod r (max - min + 1)

/-- The constructor `RRT(stepSize, maxIterations)`, lines 43-44: both vectors start empty. -/
def RRT.ctor (stepSize : F) (maxIterations : Int) : RRT F :=
  { stepSize := stepSize, maxIterations := maxIterations, tree := [], path := [] }

end Definitions

section Scan

/- The scan only compares with `<`; it is defined for any decidable relation `<`
on the scalar type, so that it can be read on doubles with NaN as well. -/
variable {F : Type} [LT F] [DecidableRel ((· < ·) : F → F → Prop)] [Add F] [Sub F]

/-- The `for` loop of `getNearestNodeIndex` (lines 92-100) over the nodes from index `i` on. -/
def getNearestNodeIndexLoop (m : DoubleOps F) (point : Point F) :
    List (Node F) → Int → F → Int → Int
  | [], _, _, nearestNodeIndex => nearestNodeIndex
  | node :: rest, i, minDistance, nearestNodeIndex =>
    let d := distance m node.point point
    if d < minDistance then
      getNearestNodeIndexLoop m point rest (i + 1) d i
    else
      getNearestNodeIndexLoop m point rest (i + 1) minDistance nearestNodeIndex

/-- Source lines 87-103. -/
def RRT.getNearestNodeIndex (m : DoubleOps F) (self : RRT F) (point : Point F) : Int :=
  getNearestNodeIndexLoop m point self.tree 0 m.dblMax (-1)

end Scan

section Definitions

variable {F : Type} [LinearOrder F] [Add F] [Sub F] [Mul F]

/-- Source lines 105-117 (`pFrom`, `pTo` are the parameters `from`, `to`). -/
def RRT.extend (m : DoubleOps F) (self : RRT F) (pFrom pTo : Point F) : Point F :=
  let d := distance m pFrom pTo
  if d ≤ self.stepSize then
    pTo
  else
    let theta := m.atan2 (pTo.y - pFrom.y) (pTo.x - pFrom.x)
    { x := pFrom.x + self.stepSize * m.cos theta, y := pFrom.y + self.stepSize * m.sin theta }

/-- Source lines 119-129. -/
def collisionWithObstacles (point : Point F) : List (Rectangle F) → Bool
  | [] => false
  | obstacle :: rest =>
    if pointInRectangle point obstacle then true else collisionWithObstacles point rest

/-- The `while` loop of `constructPath` (lines 134-142).  `fuel` bounds the number
of times the body runs; the result is `none` when the body would run more often
or when `tree[currentNodeIndex]` is outside the vector. -/
def constructPathLoop (m : DoubleOps F) (stepSize : F) (tree : List (Node F)) (goal : Point F) :
    Nat → Int → List (Point F) → Option (List (Point F))
  | 0, currentNodeIndex, path => if currentNodeIndex = -1 then some path else none
  | fuel + 1, currentNodeIndex, path =>
    if currentNodeIndex = -1 then some path
    else if currentNodeIndex < 0 then none
    else
      match tree[currentNodeIndex.toNat]? with
      | none => none
      | some node =>
        let path1 := path ++ [node.point]
        if distance m node.point goal ≤ stepSize then some path1
        else constructPathLoop m stepSize tree goal fuel node.parentIndex path1

/-- Source lines 131-144: the loop, then `std::reverse(path.begin(), path.end())`. -/
def RRT.constructPath (m : DoubleOps F) (self : RRT F) (goal : Point F) (fuel : Nat) :
    Option (RRT F) :=
  match constructPathLoop m self.stepSize self.tree goal fuel
      ((self.tree.length : Int) - 1) self.path with
  | none => none
  | some path1 => some { self with path := path1.reverse }

/-- Line 52: the point sampled in iteration `i`; `rand k` is the value of the
`k`-th call of `std::rand()` made by `generateRRT` (two calls per iteration, the
braced initialiser evaluates `x` first). -/
def randomPoint (m : DoubleOps F) (rand : Nat → Nat) (i : Nat) : Point F :=
  { x := m.ofInt (randomInt (rand (2 * i)) 0 800),
    y := m.ofInt (randomInt (rand (2 * i + 1)) 0 600) }

/-- The body of the `for` loop of `generateRRT` (lines 54-67) for the sampled
point `randomPoint`.  The Boolean is `true` when the body ends in `break`.
`constructPath` is run with fuel `tree.size()`, which always suffices
(`constructPathLoop_fuel_mono`, `constructPath_after_insert`). -/
def RRT.iteration (m : DoubleOps F) (self : RRT F) (goal : Point F)
    (obstacles : List (Rectangle F)) (randomPoint : Point F) : Option (RRT F × Bool) :=
  let nearestNodeIndex := self.getNearestNodeIndex m randomPoint
  if nearestNodeIndex < 0 then none
  else
    match self.tree[nearestNodeIndex.toNat]? with
    | none => none
    | some nearest =>
      let newPoint := self.extend m nearest.point randomPoint
      if !collisionWithObstacles newPoint obstacles then
        let self1 : RRT F :=
          { self with tree := self.tree ++ [{ point := newPoint, parentIndex := nearestNodeIndex }] }
        if distance m newPoint goal < self.stepSize then
          match self1.constructPath m goal self1.tree.length with
          | none => none
          | some self2 => some (self2, true)
        else some (self1, false)
      else some (self, false)

/-- The `for` loop of `generateRRT` (lines 50-68): `remaining` iterations are
left and the loop counter is `i`. -/
def generateRRTLoop (m : DoubleOps F) (rand : Nat → Nat) (goal : Point F)
    (obstacles : List (Rectangle F)) : Nat → Nat → RRT F → Option (RRT F × Outcome)
  | 0, _, self => some (self, Outcome.Exhausted)
  | remaining + 1, i, self =>
    match self.iteration m goal obstacles (randomPoint m rand i) with
    | none => none
    | some (self1, true) => some (self1, Outcome.Found)
    | some (self1, false) => generateRRTLoop m rand goal obstacles remaining (i + 1) self1

/-- Source lines 46-69. -/
def RRT.generateRRT (m : DoubleOps F) (rand : Nat → Nat) (self : RRT F) (start goal : Point F)
    (obstacles : List (Rectangle F)) : Option (RRT F × Outcome) :=
  generateRRTLoop m rand goal obstacles self.maxIterations.toNat 0
    { self with tree := self.tree ++ [{ point := start, parentIndex := -1 }] }

/-- The accessor `getTree()`, lines 71-74. -/
def RRT.getTree (self : RRT F) : List (Node F) := self.tree

/-- The accessor `getPath()`, lines 76-79. -/
def RRT.getPath (self : RRT F) : List (Point F) := self.path

end Definitions

/-- Values of `std::rand()` for a run that samples the point `(x, y)` in its
first iteration and `(0, 0)` afterwards. -/
def randFirst (x y : Nat) : Nat → Nat :=
  fun k => if k = 0 then x else if k = 1 then y else 0

/-- Laws of the comparisons `<` and `<=` of C++ `double` that hold for all
values, NaN included (every comparison with NaN is false): `<` is irreflexive
and transitive, `a <= b` excludes `b < a`, and `a <= b`, `b < c` give `a < c`.
Every linear order satisfies them. -/
structure ComparisonLaws (F : Type) [LT F] [LE F] : Prop where
  lt_irrefl : ∀ a : F, ¬ a < a
  lt_trans : ∀ a b c : F, a < b → b < c → a < c
  not_lt_of_le : ∀ a b : F, a ≤ b → ¬ b < a
  lt_of_le_of_lt : ∀ a b c : F, a ≤ b → b < c → a < c

/-- The tree invariant of the data model: index 0 holds the root (parent index
`-1`) and every later node points to a strictly earlier index. -/
def ParentInvariant {F : Type} (tree : List (Node F)) : Prop :=
  (∃ root : Node F, tree[0]? = some root ∧ root.parentIndex = -1) ∧
  ∀ (i : Nat) (node : Node F), 0 < i → tree[i]? = some node →
    0 ≤ node.parentIndex ∧ node.parentIndex < (i : Int)

/-- The index reached from `c` by following `parentIndex` `k` times (staying put
at the sentinel and at indices outside the tree). -/
def followParents {F : Type} (tree : List (Node F)) : Nat → Int → Int
  | 0, c => c
  | k + 1, c =>
    if c < 0 then c
    else
      match tree[c.toNat]? with
      | none => c
      | some node => followParents tree k node.parentIndex

/-- The nodes met when walking parent indices from index `c`: the node at `c`,
its parent, and so on until the sentinel `-1` (or an index outside the tree);
`k` bounds the number of nodes. -/
def parentChain {F : Type} (tree : List (Node F)) : Nat → Int → List (Node F)
  | 0, _ => []
  | k + 1, c =>
    if c < 0 then []
    else
      match tree[c.toNat]? with
      | none => []
      | some node => node :: parentChain tree k node.parentIndex

/-- The parent chain walked from the last node of the tree. -/
def chainFromLast {F : Type} (tree : List (Node F)) : List (Node F) :=
  parentChain tree tree.length ((tree.length : Int) - 1)

/-- A chain cut, inclusively, at its first node whose distance to the goal is
at most `stepSize` (the whole chain when there is none). -/
def cutAtGoal {F : Type} [LinearOrder F] [Add F] [Sub F] (m : DoubleOps F) (stepSize : F)
    (goal : Point F) : List (Node F) → List (Node F)
  | [] => []
  | node :: rest =>
    if distance m node.point goal ≤ stepSize then [node]
    else node :: cutAtGoal m stepSize goal rest

/-- The steered point `newPoint` (line 55) of iteration `i` of the run of
`generateRRT` on the fresh `RRT(stepSize, maxIterations)`: the first `i`
iterations are replayed; the result is `none` when the run broke out of the loop
or read outside the tree before or in iteration `i`. -/
def newPointAt {F : Type} [LinearOrder F] [Add F] [Sub F] [Mul F] (m : DoubleOps F)
    (rand : Nat → Nat) (stepSize : F) (maxIterations : Int) (start goal : Point F)
    (obstacles : List (Rectangle F)) (i : Nat) : Option (Point F) :=
  match generateRRTLoop m rand goal obstacles i 0
      { RRT.ctor stepSize maxIterations with tree := [{ point := start, parentIndex := -1 }] } with
  | some (s, Outcome.Exhausted) =>
    let nearestNodeIndex := s.getNearestNodeIndex m (randomPoint m rand i)
    if nearestNodeIndex < 0 then none
    else
      match s.tree[nearestNodeIndex.toNat]? with
      | none => none
      | some nearest => some (s.extend m nearest.point (randomPoint m rand i))
  | _ => none

/-- Whether iteration `i` of that run computes a steered point that collides
with no obstacle. -/
def acceptedAt {F : Type} [LinearOrder F] [Add F] [Sub F] [Mul F] (m : DoubleOps F)
    (rand : Nat → Nat) (stepSize : F) (maxIterations : Int) (start goal : Point F)
    (obstacles : List (Rectangle F)) (i : Nat) : Bool :=
  match newPointAt m rand stepSize maxIterations start goal obstacles i with
  | some newPoint => !collisionWithObstacles newPoint obstacles
  | none => false

/-- The number of iterations among the first `n` whose steered point collides
with no obstacle. -/
def acceptedCount {F : Type} [LinearOrder F] [Add F] [Sub F] [Mul F] (m : DoubleOps F)
    (rand : Nat → Nat) (stepSize : F) (maxIterations : Int) (start goal : Point F)
    (obstacles : List (Rectangle F)) (n : Nat) : Nat :=
  ((List.range n).filter
    (acceptedAt m rand stepSize maxIterations start goal obstacles)).length

/-- The bound `rrt.getPath().size() - 1` of the path-drawing loop of `main`
(line 218), computed in `size_t`, an unsigned 64-bit integer: 0 - 1 wraps to
2^64 - 1. -/
def pathLoopBound (size : Nat) : Nat :=
  (size + 2 ^ 64 - 1) % 2 ^ 64

/-- The path-drawing loop of `main` (lines 218-224) from counter `i` on, for the
vector `path` returned by `getPath()`; `bound` is the value of
`getPath().size() - 1`, the same at every evaluation of the loop condition, and
`drawn` collects the segments passed to `window.draw`.  The `int` counter is
compared as `size_t`.  The result is `none` when `getPath()[i]` or
`getPath()[i + 1]` is read outside the vector. -/
def drawPathLoop {F : Type} (path : List (Point F)) (bound : Nat) (i : Nat)
    (drawn : List (Point F × Point F)) : Option (List (Point F × Point F)) :=
  if i < bound then
    if h : i + 1 < path.length then
      drawPathLoop path bound (i + 1) (drawn ++ [(path[i], path[i + 1])])
    else none
  else some drawn
termination_by path.length - i

/-- The whole `for` statement of lines 218-224 for the vector `path`. -/
def drawPath {F : Type} (path : List (Point F)) : Option (List (Point F × Point F)) :=
  drawPathLoop path (pathLoopBound path.length) 0 []

/-- Exact interpretation of the `double` operations over the real numbers;
`dblMax` is the largest finite double `(2 - 2^(-52)) * 2^1023`. -/
noncomputable def realOps : DoubleOps ℝ where
  sqrt := Real.sqrt
  pow := fun x y => x ^ y
  atan2 := fun y x => Complex.arg ⟨x, y⟩
  cos := Real.cos
  sin := Real.sin
  dblMax := (2 - 1 / 2 ^ 52) * 2 ^ 1023
  ofInt := fun n => (n : ℝ)

/-! ## Nearest-neighbour scan -/

section Nearest

variable {F : Type} [LinearOrder F] [Add F] [Sub F]

/-- What the scan returns: either no node beats the running minimum and the
running index is returned, or the result is the position `i + k` of the first
node among those of least distance, and that distance beats the running minimum. -/
theorem getNearestNodeIndexLoop_spec (m : DoubleOps F) (q : Point F) (l : List (Node F)) :
    ∀ (i : Int) (minDistance : F) (nearest : Int),
      (getNearestNodeIndexLoop m q l i minDistance nearest = nearest ∧
          ∀ n ∈ l, minDistance ≤ distance m n.point q) ∨
      (∃ (k : Nat) (node : Node F), l[k]? = some node ∧
          getNearestNodeIndexLoop m q l i minDistance nearest = i + k ∧
          distance m node.point q < minDistance ∧
          (∀ (j : Nat) (n : Node F), l[j]? = some n →
            distance m node.point q ≤ distance m n.point q) ∧
          (∀ (j : Nat) (n : Node F), j < k → l[j]? = some n →
            distance m node.point q < distance m n.point q)) := by
  induction l with
  | nil =>
    intro i minDistance nearest
    left
    simp [getNearestNodeIndexLoop]
  | cons node rest ih =>
    intro i minDistance nearest
    by_cases hd : distance m node.point q < minDistance
    · have hstep : getNearestNodeIndexLoop m q (node :: rest) i minDistance nearest
          = getNearestNodeIndexLoop m q rest (i + 1) (distance m node.point q) i := by
        simp [getNearestNodeIndexLoop, hd]
      rcases ih (i + 1) (distance m node.point q) i with ⟨hres, hall⟩ | ⟨k, nd, hk, hres, hlt, hmin, htie⟩
      · right
        refine ⟨0, node, by simp, ?_, hd, ?_, ?_⟩
        · rw [hstep, hres]; simp
        · intro j n hj
          cases j with
          | zero => simp at hj; subst hj; exact le_refl _
          | succ j =>
            simp at hj
            exact hall n (List.getElem?_mem hj)
        · intro j n hj0; omega
      · right
        refine ⟨k + 1, nd, by simpa using hk, ?_, lt_trans hlt hd, ?_, ?_⟩
        · rw [hstep, hres]; push_cast; ring
        · intro j n hj
          cases j with
          | zero => simp at hj; subst hj; exact le_of_lt hlt
          | succ j => simp at hj; exact hmin j n hj
        · intro j n hjk hj
          cases j with
          | zero => simp at hj; subst hj; exact hlt
          | succ j => simp at hj; exact htie j n (by omega) hj
    · have hstep : getNearestNodeIndexLoop m q (node :: rest) i minDistance nearest
          = getNearestNodeIndexLoop m q rest (i + 1) minDistance nearest := by
        simp [getNearestNodeIndexLoop, hd]
      have hle : minDistance ≤ distance m node.point q := not_lt.mp hd
      rcases ih (i + 1) minDistance nearest with ⟨hres, hall⟩ | ⟨k, nd, hk, hres, hlt, hmin, htie⟩
      · left
        refine ⟨by rw [hstep, hres], ?_⟩
        intro n hn
        rcases List.mem_cons.mp hn with rfl | hn
        · exact hle
        · exact hall n hn
      · right
        refine ⟨k + 1, nd, by simpa using hk, ?_, hlt, ?_, ?_⟩
        · rw [hstep, hres]; push_cast; ring
        · intro j n hj
          cases j with
          | zero => simp at hj; subst hj; exact le_of_lt (lt_of_lt_of_le hlt hle)
          | succ j => simp at hj; exact hmin j n hj
        · intro j n hjk hj
          cases j with
          | zero => simp at hj; subst hj; exact lt_of_lt_of_le hlt hle
          | succ j => simp at hj; exact htie j n (by omega) hj

/-- The result of `getNearestNodeIndex`: the sentinel `-1` when no node is at a
distance below `dblMax`, otherwise the first index of least distance. -/
theorem getNearestNodeIndex_spec (m : DoubleOps F) (self : RRT F) (q : Point F) :
    (self.getNearestNodeIndex m q = -1 ∧ ∀ n ∈ self.tree, m.dblMax ≤ distance m n.point q) ∨
    (∃ (k : Nat) (node : Node F), self.tree[k]? = some node ∧
        self.getNearestNodeIndex m q = (k : Int) ∧
        distance m node.point q < m.dblMax ∧
        (∀ (j : Nat) (n : Node F), self.tree[j]? = some n →
          distance m node.point q ≤ distance m n.point q) ∧
        (∀ (j : Nat) (n : Node F), j < k → self.tree[j]? = some n →
          distance m node.point q < distance m n.point q)) := by
  rcases getNearestNodeIndexLoop_spec m q self.tree 0 m.dblMax (-1) with h | ⟨k, nd, hk, hres, h⟩
  · left; exact h
  · right
    exact ⟨k, nd, hk, by simpa [RRT.getNearestNodeIndex] using hres, h⟩

end Nearest

/-! ## Path extraction: fuel and the call made by `generateRRT` -/

section ConstructPath

variable {F : Type} [LinearOrder F] [Add F] [Sub F]

/-- A finished run of the `while` loop is not changed by a larger bound. -/
theorem constructPathLoop_fuel_mono (m : DoubleOps F) (stepSize : F) (tree : List (Node F))
    (goal : Point F) :
    ∀ (fuel fuel2 : Nat) (c : Int) (path r : List (Point F)), fuel ≤ fuel2 →
      constructPathLoop m stepSize tree goal fuel c path = some r →
      constructPathLoop m stepSize tree goal fuel2 c path = some r := by
  intro fuel
  induction fuel with
  | zero =>
    intro fuel2 c path r _ h
    by_cases hc : c = -1
    · cases fuel2 <;> simpa [constructPathLoop, hc] using h
    · simp [constructPathLoop, hc] at h
  | succ fuel ih =>
    intro fuel2 c path r hle h
    obtain ⟨f2, rfl⟩ : ∃ f2, fuel2 = f2 + 1 := ⟨fuel2 - 1, by omega⟩
    by_cases hc : c = -1
    · simpa [constructPathLoop, hc] using h
    · by_cases hneg : c < 0
      · simp [constructPathLoop, hc, hneg] at h
      · cases hnode : tree[c.toNat]? with
        | none => simp [constructPathLoop, hc, hneg, hnode] at h
        | some node =>
          by_cases hd : distance m node.point goal ≤ stepSize
          · simpa [constructPathLoop, hc, hneg, hnode, hd] using h
          · simp only [constructPathLoop, hc, hneg, hnode, hd, if_false] at h ⊢
            exact ih f2 node.parentIndex _ r (by omega) h

/-- The call of `constructPath` made by `generateRRT`: the node just appended is
within `stepSize` of the goal, so the loop body runs once and the path is the
old path followed by that node's point, reversed. -/
theorem constructPath_after_insert (m : DoubleOps F) (self : RRT F) (node : Node F)
    (goal : Point F) (fuel : Nat) (hd : distance m node.point goal ≤ self.stepSize) :
    RRT.constructPath m { self with tree := self.tree ++ [node] } goal (fuel + 1)
      = some { self with tree := self.tree ++ [node],
                         path := (self.path ++ [node.point]).reverse } := by
  have hidx : (((self.tree ++ [node]).length : Int) - 1).toNat = self.tree.length := by
    simp
  have hne : ¬ (((self.tree ++ [node]).length : Int) - 1 = -1) := by
    simp only [List.length_append, List.length_singleton]; omega
  have hnn : ¬ (((self.tree ++ [node]).length : Int) - 1 < 0) := by
    simp only [List.length_append, List.length_singleton]; omega
  have hget : (self.tree ++ [node])[self.tree.length]? = some node :=
    List.getElem?_concat_length _ _
  simp only [RRT.constructPath, constructPathLoop, hne, hnn, hidx, hget, hd, if_true, if_false]

end ConstructPath

/-! ## Collision test -/

section Collision

variable {F : Type} [LinearOrder F] [Add F]

/-- The collision test is the disjunction of the rectangle tests. -/
theorem collisionWithObstacles_eq_false_iff (p : Point F) (obstacles : List (Rectangle F)) :
    collisionWithObstacles p obstacles = false ↔
      ∀ r ∈ obstacles, pointInRectangle p r = false := by
  induction obstacles with
  | nil => simp [collisionWithObstacles]
  | cons r rest ih =>
    by_cases hr : pointInRectangle p r = true
    · simp [collisionWithObstacles, hr]
    · simp only [Bool.not_eq_true] at hr
      simp [collisionWithObstacles, hr, ih]

end Collision

/-! ## One iteration of the planner loop -/

section Iteration

variable {F : Type} [LinearOrder F] [Add F] [Sub F] [Mul F]

/-- The three ways the loop body can end when the nearest-node lookup is inside
the tree (rejected point, plain insert, insert that reaches the goal), and the
out-of-bounds lookup when `getNearestNodeIndex` returns `-1`. -/
theorem iteration_cases (m : DoubleOps F) (self : RRT F) (goal : Point F)
    (obstacles : List (Rectangle F)) (q : Point F) :
    (self.getNearestNodeIndex m q = -1 ∧ self.iteration m goal obstacles q = none) ∨
    (∃ (k : Nat) (nearest : Node F), self.tree[k]? = some nearest ∧
      self.getNearestNodeIndex m q = (k : Int) ∧
      ((collisionWithObstacles (self.extend m nearest.point q) obstacles = true ∧
          self.iteration m goal obstacles q = some (self, false)) ∨
       (collisionWithObstacles (self.extend m nearest.point q) obstacles = false ∧
          ¬ distance m (self.extend m nearest.point q) goal < self.stepSize ∧
          self.iteration m goal obstacles q =
            some ({ self with tree := self.tree ++
                      [{ point := self.extend m nearest.point q, parentIndex := (k : Int) }] },
                  false)) ∨
       (collisionWithObstacles (self.extend m nearest.point q) obstacles = false ∧
          distance m (self.extend m nearest.point q) goal < self.stepSize ∧
          self.iteration m goal obstacles q =
            some ({ self with
                      tree := self.tree ++
                        [{ point := self.extend m nearest.point q, parentIndex := (k : Int) }],
                      path := (self.path ++ [self.extend m nearest.point q]).reverse },
                  true)))) := by
  rcases getNearestNodeIndex_spec m self q with ⟨hres, _⟩ | ⟨k, nd, hk, hres, _⟩
  · left
    refine ⟨hres, ?_⟩
    simp [RRT.iteration, hres]
  · right
    refine ⟨k, nd, hk, hres, ?_⟩
    have hnn : ¬ ((k : Int) < 0) := by omega
    by_cases hc : collisionWithObstacles (self.extend m nd.point q) obstacles = true
    · left
      refine ⟨hc, ?_⟩
      have hc2 : collisionWithObstacles
          (RRT.extend m self nd.point q) obstacles = true := hc
      simp [RRT.iteration, hres, hk, hc2]
    · simp only [Bool.not_eq_true] at hc
      right
      by_cases hg : distance m (self.extend m nd.point q) goal < self.stepSize
      · right
        refine ⟨hc, hg, ?_⟩
        have hcp := constructPath_after_insert m self
          { point := self.extend m nd.point q, parentIndex := (k : Int) } goal
          self.tree.length (le_of_lt hg)
        simp only [RRT.iteration, hres, hnn, if_false, Int.toNat_ofNat, hk, hc, Bool.not_false,
          if_true, hg, List.length_append, List.length_singleton]
        rw [hcp]
      · left
        refine ⟨hc, hg, ?_⟩
        simp [RRT.iteration, hres, hk, hc, hg]

end Iteration

/-! ## The planner loop -/

section Loop

variable {F : Type} [LinearOrder F] [Add F] [Sub F] [Mul F]

/-- A property of the planner state kept by every loop body is kept by the loop. -/
theorem generateRRTLoop_preserves (m : DoubleOps F) (rand : Nat → Nat) (goal : Point F)
    (obstacles : List (Rectangle F)) (P : RRT F → Prop)
    (hstep : ∀ (s : RRT F) (q : Point F) (s1 : RRT F) (b : Bool), P s →
      s.iteration m goal obstacles q = some (s1, b) → P s1) :
    ∀ (n i : Nat) (s s1 : RRT F) (o : Outcome), P s →
      generateRRTLoop m rand goal obstacles n i s = some (s1, o) → P s1 := by
  intro n
  induction n with
  | zero =>
    intro i s s1 o hP h
    simp only [generateRRTLoop, Option.some.injEq, Prod.mk.injEq] at h
    rw [← h.1]; exact hP
  | succ n ih =>
    intro i s s1 o hP h
    cases hit : s.iteration m goal obstacles (randomPoint m rand i) with
    | none => simp [generateRRTLoop, hit] at h
    | some res =>
      obtain ⟨s2, b⟩ := res
      have hP2 := hstep s _ s2 b hP hit
      cases b with
      | true =>
        simp only [generateRRTLoop, hit, Option.some.injEq, Prod.mk.injEq] at h
        rw [← h.1]; exact hP2
      | false =>
        simp only [generateRRTLoop, hit] at h
        exact ih (i + 1) s2 s1 o hP2 h

/-- Unfolding the loop: the body ran to its end without `break`. -/
theorem generateRRTLoop_succ_continue (m : DoubleOps F) (rand : Nat → Nat) (goal : Point F)
    (obstacles : List (Rectangle F)) (n i : Nat) (s s1 : RRT F)
    (h : s.iteration m goal obstacles (randomPoint m rand i) = some (s1, false)) :
    generateRRTLoop m rand goal obstacles (n + 1) i s =
      generateRRTLoop m rand goal obstacles n (i + 1) s1 := by
  simp only [generateRRTLoop, h]

/-- Unfolding the loop: the body ended in `break`. -/
theorem generateRRTLoop_succ_break (m : DoubleOps F) (rand : Nat → Nat) (goal : Point F)
    (obstacles : List (Rectangle F)) (n i : Nat) (s s1 : RRT F)
    (h : s.iteration m goal obstacles (randomPoint m rand i) = some (s1, true)) :
    generateRRTLoop m rand goal obstacles (n + 1) i s = some (s1, Outcome.Found) := by
  simp only [generateRRTLoop, h]

/-- Unfolding the loop: the body read outside the tree. -/
theorem generateRRTLoop_succ_none (m : DoubleOps F) (rand : Nat → Nat) (goal : Point F)
    (obstacles : List (Rectangle F)) (n i : Nat) (s : RRT F)
    (h : s.iteration m goal obstacles (randomPoint m rand i) = none) :
    generateRRTLoop m rand goal obstacles (n + 1) i s = none := by
  simp only [generateRRTLoop, h]

/-- The loop body changes neither `stepSize` nor `maxIterations`; it leaves the
path alone unless it breaks, and then the path is the old path followed by the
point of the node just inserted (the last of the tree, closer than `stepSize`
to the goal), reversed. -/
theorem iteration_outcome (m : DoubleOps F) (s : RRT F) (goal : Point F)
    (obstacles : List (Rectangle F)) (q : Point F) (s1 : RRT F) (b : Bool)
    (h : s.iteration m goal obstacles q = some (s1, b)) :
    s1.stepSize = s.stepSize ∧ s1.maxIterations = s.maxIterations ∧
    (b = false → s1.path = s.path) ∧
    (b = true → ∃ last : Node F, s1.tree.getLast? = some last ∧
      distance m last.point goal < s.stepSize ∧
      s1.path = (s.path ++ [last.point]).reverse) := by
  rcases iteration_cases m s goal obstacles q with ⟨_, hn⟩ | ⟨k, nd, _, _, hc⟩
  · rw [hn] at h; cases h
  · rcases hc with ⟨_, he⟩ | ⟨_, _, he⟩ | ⟨_, hg, he⟩
    · rw [he] at h
      simp only [Option.some.injEq, Prod.mk.injEq] at h
      obtain ⟨rfl, rfl⟩ := h
      simp
    · rw [he] at h
      simp only [Option.some.injEq, Prod.mk.injEq] at h
      obtain ⟨rfl, rfl⟩ := h
      simp
    · rw [he] at h
      simp only [Option.some.injEq, Prod.mk.injEq] at h
      obtain ⟨rfl, rfl⟩ := h
      refine ⟨rfl, rfl, by simp, fun _ => ?_⟩
      exact ⟨_, List.getLast?_concat _, hg, rfl⟩

/-- The same facts for the whole loop: an `Exhausted` run leaves the path as it
was, a `Found` run ends with the one-step path extraction from the last node. -/
theorem generateRRTLoop_outcome (m : DoubleOps F) (rand : Nat → Nat) (goal : Point F)
    (obstacles : List (Rectangle F)) :
    ∀ (n i : Nat) (s s1 : RRT F) (o : Outcome),
      generateRRTLoop m rand goal obstacles n i s = some (s1, o) →
      s1.stepSize = s.stepSize ∧ s1.maxIterations = s.maxIterations ∧
      (o = Outcome.Exhausted → s1.path = s.path) ∧
      (o = Outcome.Found → ∃ last : Node F, s1.tree.getLast? = some last ∧
        distance m last.point goal < s.stepSize ∧
        s1.path = (s.path ++ [last.point]).reverse) := by
  intro n
  induction n with
  | zero =>
    intro i s s1 o h
    simp only [generateRRTLoop, Option.some.injEq, Prod.mk.injEq] at h
    obtain ⟨rfl, rfl⟩ := h
    simp
  | succ n ih =>
    intro i s s1 o h
    cases hit : s.iteration m goal obstacles (randomPoint m rand i) with
    | none => simp [generateRRTLoop, hit] at h
    | some res =>
      obtain ⟨s2, b⟩ := res
      obtain ⟨hs, hm, hpf, hpt⟩ := iteration_outcome m s goal obstacles _ s2 b hit
      cases b with
      | true =>
        simp only [generateRRTLoop, hit, Option.some.injEq, Prod.mk.injEq] at h
        obtain ⟨rfl, rfl⟩ := h
        refine ⟨hs, hm, by simp, fun _ => hpt rfl⟩
      | false =>
        simp only [generateRRTLoop, hit] at h
        obtain ⟨hs2, hm2, he2, hf2⟩ := ih (i + 1) s2 s1 o h
        refine ⟨hs2.trans hs, hm2.trans hm, ?_, ?_⟩
        · intro ho; rw [he2 ho, hpf rfl]
        · intro ho
          obtain ⟨last, hl, hd, hp⟩ := hf2 ho
          exact ⟨last, hl, by rw [← hs]; exact hd, by rw [hp, hpf rfl]⟩

end Loop

/-! ## Running the program on concrete inputs (exact arithmetic) -/

section Concrete

/-- Under `realOps` the distance is the Euclidean one. -/
theorem distance_realOps (p q : Point ℝ) :
    distance realOps p q = Real.sqrt ((p.x - q.x) ^ 2 + (p.y - q.y) ^ 2) := by
  simp [distance, realOps]

/-- Distance of two points on a horizontal line. -/
theorem distance_realOps_horizontal (a b y : ℝ) :
    distance realOps ⟨a, y⟩ ⟨b, y⟩ = |a - b| := by
  rw [distance_realOps]
  simp [Real.sqrt_sq_eq_abs]

/-- The largest double exceeds every distance inside the sampling window. -/
theorem realOps_dblMax_gt : (1000000 : ℝ) < realOps.dblMax := by
  simp only [realOps]
  norm_num

/-- The first sampled point under `randFirst x y`, for `x ≤ 800` and `y ≤ 600`. -/
theorem randomPoint_randFirst (x y : Nat) (hx : x ≤ 800) (hy : y ≤ 600) :
    randomPoint realOps (randFirst x y) 0 = ⟨(x : ℝ), (y : ℝ)⟩ := by
  have h1 : randomInt (x : Int) 0 800 = x := by
    simp only [randomInt]
    have : Int.tmod (x : Int) (800 - 0 + 1) = x := by
      rw [Int.tmod_eq_emod (by omega) (by omega)]
      omega
    omega
  have h2 : randomInt (y : Int) 0 600 = y := by
    simp only [randomInt]
    have : Int.tmod (y : Int) (600 - 0 + 1) = y := by
      rw [Int.tmod_eq_emod (by omega) (by omega)]
      omega
    omega
  simp [randomPoint, randFirst, h1, h2, realOps]

end Concrete

section Nearest2

variable {F : Type} [LinearOrder F] [Add F] [Sub F]

/-- On a one-node tree the scan returns index 0 when the node is closer than `dblMax`. -/
theorem getNearestNodeIndex_singleton (m : DoubleOps F) (s : RRT F) (node : Node F)
    (q : Point F) (ht : s.tree = [node]) (h : distance m node.point q < m.dblMax) :
    s.getNearestNodeIndex m q = 0 := by
  simp [RRT.getNearestNodeIndex, ht, getNearestNodeIndexLoop, h]

end Nearest2

section C1

/-- The run with start (0,0), goal (30,0), stepSize 20, one iteration and the
sample (15,0): the point is inserted, is closer than 20 to the goal, and the
path extraction stops at it. -/
theorem run_found_example :
    RRT.generateRRT realOps (randFirst 15 0) (RRT.ctor 20 1) ⟨0, 0⟩ ⟨30, 0⟩ [] =
      some ({ stepSize := 20, maxIterations := 1,
              tree := [⟨⟨0, 0⟩, -1⟩, ⟨⟨15, 0⟩, 0⟩], path := [⟨15, 0⟩] }, Outcome.Found) := by
  have hq : randomPoint realOps (randFirst 15 0) 0 = ⟨15, 0⟩ := by
    simpa using randomPoint_randFirst 15 0 (by omega) (by omega)
  have hd1 : distance realOps ⟨0, 0⟩ ⟨15, 0⟩ = 15 := by
    rw [distance_realOps_horizontal]; norm_num
  have hd2 : distance realOps ⟨15, 0⟩ ⟨30, 0⟩ = 15 := by
    rw [distance_realOps_horizontal]; norm_num
  have hmax := realOps_dblMax_gt
  have hn : RRT.getNearestNodeIndex realOps
      { stepSize := 20, maxIterations := 1, tree := [⟨⟨0, 0⟩, -1⟩], path := [] } ⟨15, 0⟩ = 0 :=
    getNearestNodeIndex_singleton realOps _ ⟨⟨0, 0⟩, -1⟩ _ rfl (by rw [hd1]; linarith)
  simp only [RRT.generateRRT, RRT.ctor, List.nil_append, Int.toNat_one, generateRRTLoop, hq,
    RRT.iteration, hn]
  norm_num [RRT.extend, hd1, hd2, collisionWithObstacles, RRT.constructPath, constructPathLoop]

/-- C1 (code evaluated at the failing input): with start (0,0), goal (30,0),
stepSize 20, one iteration and the sample (15,0), the run is `Found` and
`getPath()` is the single point (15,0): it does not begin at the start. -/
theorem C1_found_path_misses_start :
    ∃ rrt : RRT ℝ,
      RRT.generateRRT realOps (randFirst 15 0) (RRT.ctor 20 1) ⟨0, 0⟩ ⟨30, 0⟩ [] =
        some (rrt, Outcome.Found) ∧
      rrt.getPath = [⟨15, 0⟩] ∧ rrt.getPath.head? ≠ some ⟨0, 0⟩ :=
  ⟨_, run_found_example, rfl, by simp [RRT.getPath]⟩

end C1

section C2

variable {F : Type} [LinearOrder F] [Add F] [Sub F] [Mul F]

/-- Distance of two points on a vertical line. -/
theorem distance_realOps_vertical (x a b : ℝ) :
    distance realOps ⟨x, a⟩ ⟨x, b⟩ = |a - b| := by
  rw [distance_realOps]
  simp [Real.sqrt_sq_eq_abs]

/-- C2 (counterexample): in the scenario of the claim the sample (0,20) is
inserted unchanged, lies at distance sqrt 500 > 20 from the goal (10,0), and the
run ends `Exhausted` with an empty path instead of `Found` with two points. -/
theorem C2_sample_0_20_exhausted :
    RRT.generateRRT realOps (randFirst 0 20) (RRT.ctor 20 1) ⟨0, 0⟩ ⟨10, 0⟩ [] =
      some ({ stepSize := 20, maxIterations := 1,
              tree := [⟨⟨0, 0⟩, -1⟩, ⟨⟨0, 20⟩, 0⟩], path := [] }, Outcome.Exhausted) := by
  have hq : randomPoint realOps (randFirst 0 20) 0 = ⟨0, 20⟩ := by
    simpa using randomPoint_randFirst 0 20 (by omega) (by omega)
  have hd1 : distance realOps ⟨0, 0⟩ ⟨0, 20⟩ = 20 := by
    rw [distance_realOps_vertical]; norm_num
  have hd2 : ¬ distance realOps ⟨0, 20⟩ ⟨10, 0⟩ < 20 := by
    rw [distance_realOps, not_lt]
    apply Real.le_sqrt_of_sq_le
    norm_num
  have hmax := realOps_dblMax_gt
  have hn : RRT.getNearestNodeIndex realOps
      { stepSize := 20, maxIterations := 1, tree := [⟨⟨0, 0⟩, -1⟩], path := [] } ⟨0, 20⟩ = 0 :=
    getNearestNodeIndex_singleton realOps _ ⟨⟨0, 0⟩, -1⟩ _ rfl (by rw [hd1]; linarith)
  simp only [RRT.generateRRT, RRT.ctor, List.nil_append, Int.toNat_one, generateRRTLoop, hq,
    RRT.iteration, hn]
  norm_num [RRT.extend, hd1, hd2, collisionWithObstacles]

/-- C2 (amended): in the scenario of the claim (no obstacles, start (0,0), goal
(10,0), stepSize 20, one iteration), whenever the computed distance from the
start to the sample is below the largest double, the run inserts exactly the
node `{extend(start, sample), 0}`, ends `Found` exactly when that node is
closer than 20 to the goal, and otherwise ends `Exhausted` with an empty path. -/
theorem C2_single_iteration (m : DoubleOps F) (rand : Nat → Nat)
    (h : distance m ⟨m.ofInt 0, m.ofInt 0⟩ (randomPoint m rand 0) < m.dblMax) :
    ∃ (rrt : RRT F) (o : Outcome),
      RRT.generateRRT m rand (RRT.ctor (m.ofInt 20) 1) ⟨m.ofInt 0, m.ofInt 0⟩
        ⟨m.ofInt 10, m.ofInt 0⟩ [] = some (rrt, o) ∧
      rrt.getTree =
        [⟨⟨m.ofInt 0, m.ofInt 0⟩, -1⟩,
         ⟨(RRT.ctor (m.ofInt 20) 1).extend m ⟨m.ofInt 0, m.ofInt 0⟩ (randomPoint m rand 0), 0⟩] ∧
      (o = Outcome.Found ↔
        distance m ((RRT.ctor (m.ofInt 20) 1).extend m ⟨m.ofInt 0, m.ofInt 0⟩
          (randomPoint m rand 0)) ⟨m.ofInt 10, m.ofInt 0⟩ < m.ofInt 20) ∧
      (o = Outcome.Exhausted → rrt.getPath = []) := by
  have hn := getNearestNodeIndex_singleton m
    { stepSize := m.ofInt 20, maxIterations := 1,
      tree := [⟨⟨m.ofInt 0, m.ofInt 0⟩, -1⟩], path := [] }
    ⟨⟨m.ofInt 0, m.ofInt 0⟩, -1⟩ (randomPoint m rand 0) rfl h
  have hrun : RRT.generateRRT m rand (RRT.ctor (m.ofInt 20) 1) ⟨m.ofInt 0, m.ofInt 0⟩
      ⟨m.ofInt 10, m.ofInt 0⟩ [] =
      generateRRTLoop m rand ⟨m.ofInt 10, m.ofInt 0⟩ [] 1 0
        { stepSize := m.ofInt 20, maxIterations := 1,
          tree := [⟨⟨m.ofInt 0, m.ofInt 0⟩, -1⟩], path := [] } := rfl
  rw [hrun]
  rcases iteration_cases m
      { stepSize := m.ofInt 20, maxIterations := 1,
        tree := [⟨⟨m.ofInt 0, m.ofInt 0⟩, -1⟩], path := [] }
      ⟨m.ofInt 10, m.ofInt 0⟩ [] (randomPoint m rand 0) with ⟨hneg, _⟩ | ⟨k, nd, hk, hidx, hc⟩
  · rw [hn] at hneg; omega
  · rw [hn] at hidx
    have hk0 : k = 0 := by omega
    subst hk0
    simp only [List.getElem?_cons_zero, Option.some.injEq] at hk
    subst hk
    rcases hc with ⟨hcol, _⟩ | ⟨_, hg, he⟩ | ⟨_, hg, he⟩
    · simp [collisionWithObstacles] at hcol
    · have hloop := generateRRTLoop_succ_continue m rand ⟨m.ofInt 10, m.ofInt 0⟩ [] 0 0 _ _ he
      refine ⟨_, Outcome.Exhausted, hloop, ?_, ?_, ?_⟩
      · rfl
      · constructor
        · intro ho; cases ho
        · intro hlt; exact absurd hlt hg
      · intro _; rfl
    · have hloop := generateRRTLoop_succ_break m rand ⟨m.ofInt 10, m.ofInt 0⟩ [] 0 0 _ _ he
      refine ⟨_, Outcome.Found, hloop, ?_, ?_, ?_⟩
      · rfl
      · exact ⟨fun _ => hg, fun _ => rfl⟩
      · intro ho; cases ho

/-- C2 (amended), witness: the sample (10,0) is at distance 10 from the start. -/
theorem C2_single_iteration_witness :
    distance realOps ⟨realOps.ofInt 0, realOps.ofInt 0⟩
        (randomPoint realOps (randFirst 10 0) 0) < realOps.dblMax ∧
    ∃ (rrt : RRT ℝ) (o : Outcome),
      RRT.generateRRT realOps (randFirst 10 0) (RRT.ctor (realOps.ofInt 20) 1)
        ⟨realOps.ofInt 0, realOps.ofInt 0⟩ ⟨realOps.ofInt 10, realOps.ofInt 0⟩ [] =
          some (rrt, o) ∧
      rrt.getTree =
        [⟨⟨realOps.ofInt 0, realOps.ofInt 0⟩, -1⟩,
         ⟨(RRT.ctor (realOps.ofInt 20) 1).extend realOps ⟨realOps.ofInt 0, realOps.ofInt 0⟩
            (randomPoint realOps (randFirst 10 0) 0), 0⟩] ∧
      (o = Outcome.Found ↔
        distance realOps ((RRT.ctor (realOps.ofInt 20) 1).extend realOps
          ⟨realOps.ofInt 0, realOps.ofInt 0⟩ (randomPoint realOps (randFirst 10 0) 0))
          ⟨realOps.ofInt 10, realOps.ofInt 0⟩ < realOps.ofInt 20) ∧
      (o = Outcome.Exhausted → rrt.getPath = []) := by
  have h : distance realOps ⟨realOps.ofInt 0, realOps.ofInt 0⟩
      (randomPoint realOps (randFirst 10 0) 0) < realOps.dblMax := by
    have hq : randomPoint realOps (randFirst 10 0) 0 = ⟨10, 0⟩ := by
      simpa using randomPoint_randFirst 10 0 (by omega) (by omega)
    have h0 : realOps.ofInt 0 = (0 : ℝ) := by simp [realOps]
    rw [hq, h0, distance_realOps_horizontal]
    have := realOps_dblMax_gt
    norm_num
    linarith
  exact ⟨h, C2_single_iteration realOps (randFirst 10 0) h⟩

end C2

/-! ## Tree invariants of a run -/

section TreeInvariants

variable {F : Type} [LinearOrder F] [Add F] [Sub F] [Mul F]

/-- The tree after one loop body: unchanged, or the old tree followed by one
node whose parent is an index of the old tree and whose point does not collide. -/
theorem iteration_tree (m : DoubleOps F) (s : RRT F) (goal : Point F)
    (obstacles : List (Rectangle F)) (q : Point F) (s1 : RRT F) (b : Bool)
    (h : s.iteration m goal obstacles q = some (s1, b)) :
    s1.tree = s.tree ∨
    ∃ (k : Nat) (nearest : Node F), s.tree[k]? = some nearest ∧
      s.getNearestNodeIndex m q = (k : Int) ∧
      collisionWithObstacles (s.extend m nearest.point q) obstacles = false ∧
      s1.tree = s.tree ++ [{ point := s.extend m nearest.point q, parentIndex := (k : Int) }] := by
  rcases iteration_cases m s goal obstacles q with ⟨_, hn⟩ | ⟨k, nd, hk, hidx, hc⟩
  · rw [hn] at h; cases h
  · rcases hc with ⟨_, he⟩ | ⟨hcol, _, he⟩ | ⟨hcol, _, he⟩
    · rw [he] at h
      simp only [Option.some.injEq, Prod.mk.injEq] at h
      left; rw [← h.1]
    · rw [he] at h
      simp only [Option.some.injEq, Prod.mk.injEq] at h
      right; exact ⟨k, nd, hk, hidx, hcol, by rw [← h.1]⟩
    · rw [he] at h
      simp only [Option.some.injEq, Prod.mk.injEq] at h
      right; exact ⟨k, nd, hk, hidx, hcol, by rw [← h.1]⟩

/-- The state property kept by the loop: the root is `{start, -1}`, every later
node has a parent index below its own index and a point outside all obstacles. -/
theorem generateRRT_tree (m : DoubleOps F) (rand : Nat → Nat) (stepSize : F)
    (maxIterations : Int) (start goal : Point F) (obstacles : List (Rectangle F))
    (rrt : RRT F) (o : Outcome)
    (h : RRT.generateRRT m rand (RRT.ctor stepSize maxIterations) start goal obstacles
      = some (rrt, o)) :
    rrt.tree[0]? = some { point := start, parentIndex := -1 } ∧
    ∀ (i : Nat) (node : Node F), 0 < i → rrt.tree[i]? = some node →
      (0 ≤ node.parentIndex ∧ node.parentIndex < (i : Int)) ∧
      collisionWithObstacles node.point obstacles = false := by
  refine generateRRTLoop_preserves m rand goal obstacles
    (fun s => s.tree[0]? = some { point := start, parentIndex := -1 } ∧
      ∀ (i : Nat) (node : Node F), 0 < i → s.tree[i]? = some node →
        (0 ≤ node.parentIndex ∧ node.parentIndex < (i : Int)) ∧
        collisionWithObstacles node.point obstacles = false)
    ?_ _ 0 _ rrt o ?_ h
  · intro s q s1 b ⟨h0, hrest⟩ hit
    rcases iteration_tree m s goal obstacles q s1 b hit with ht | ⟨k, nd, hk, _, hcol, ht⟩
    · rw [ht]; exact ⟨h0, hrest⟩
    · have hklt : k < s.tree.length := (List.getElem?_eq_some.mp hk).1
      have hpos : 0 < s.tree.length := by omega
      rw [ht]
      constructor
      · rw [List.getElem?_append_left hpos]; exact h0
      · intro i node hi hnode
        by_cases hlt : i < s.tree.length
        · rw [List.getElem?_append_left hlt] at hnode
          exact hrest i node hi hnode
        · have hlen := (List.getElem?_eq_some.mp hnode).1
          simp only [List.length_append, List.length_singleton] at hlen
          have hi2 : i = s.tree.length := by omega
          subst hi2
          rw [List.getElem?_concat_length] at hnode
          simp only [Option.some.injEq] at hnode
          subst hnode
          exact ⟨⟨by simp, by simp; omega⟩, hcol⟩
  · refine ⟨by simp [RRT.ctor], ?_⟩
    intro i node hi hnode
    have hlen := (List.getElem?_eq_some.mp hnode).1
    simp [RRT.ctor] at hlen
    omega

end TreeInvariants

section FollowParents

variable {F : Type}

/-- Under the parent-index invariant, following parent indices from any index
of the tree reaches index 0 in at most that many steps. -/
theorem followParents_reaches_root (tree : List (Node F)) (hinv : ParentInvariant tree) :
    ∀ (i : Nat), i < tree.length → ∃ k : Nat, k ≤ i ∧ followParents tree k (i : Int) = 0 := by
  intro i
  induction i using Nat.strong_induction_on with
  | _ i ih =>
    intro hi
    rcases Nat.eq_zero_or_pos i with rfl | hpos
    · exact ⟨0, le_refl _, rfl⟩
    · obtain ⟨hp0, hpi⟩ := hinv.2 i tree[i] hpos (List.getElem?_eq_getElem hi)
      have hplt : tree[i].parentIndex.toNat < i := by omega
      obtain ⟨k, hk, hfk⟩ := ih _ hplt (by omega)
      refine ⟨k + 1, by omega, ?_⟩
      have hcast : ((tree[i].parentIndex.toNat : Nat) : Int) = tree[i].parentIndex := by omega
      rw [hcast] at hfk
      have hnn : ¬ ((i : Int) < 0) := by omega
      simp only [followParents, hnn, if_false, Int.toNat_ofNat, List.getElem?_eq_getElem hi]
      exact hfk

end FollowParents

section C5

variable {F : Type} [LinearOrder F] [Add F] [Sub F] [Mul F]

/-- The sampled points after the first one under `randFirst x y` are (0,0). -/
theorem randomPoint_randFirst_succ (x y i : Nat) :
    randomPoint realOps (randFirst x y) (i + 1) = ⟨0, 0⟩ := by
  have h1 : randFirst x y (2 * (i + 1)) = 0 := by
    simp only [randFirst]
    rw [if_neg (by omega), if_neg (by omega)]
  have h2 : randFirst x y (2 * (i + 1) + 1) = 0 := by
    simp only [randFirst]
    rw [if_neg (by omega), if_neg (by omega)]
  simp [randomPoint, h1, h2, randomInt, realOps]

/-- A run of two iterations with the obstacle [10,20] x [-5,5], start (0,0),
goal (100,0) and stepSize 20: the first sample (15,0) falls inside the obstacle
and is dropped, the second sample (0,0) is inserted, the goal is not reached. -/
theorem run_rejected_example :
    RRT.generateRRT realOps (randFirst 15 0) (RRT.ctor 20 2) ⟨0, 0⟩ ⟨100, 0⟩
        [⟨10, -5, 10, 10⟩] =
      some ({ stepSize := 20, maxIterations := 2,
              tree := [⟨⟨0, 0⟩, -1⟩, ⟨⟨0, 0⟩, 0⟩], path := [] }, Outcome.Exhausted) := by
  have hq0 : randomPoint realOps (randFirst 15 0) 0 = ⟨15, 0⟩ := by
    simpa using randomPoint_randFirst 15 0 (by omega) (by omega)
  have hq1 : randomPoint realOps (randFirst 15 0) (0 + 1) = ⟨0, 0⟩ :=
    randomPoint_randFirst_succ 15 0 0
  have hd1 : distance realOps ⟨0, 0⟩ ⟨15, 0⟩ = 15 := by
    rw [distance_realOps_horizontal]; norm_num
  have hd2 : distance realOps ⟨0, 0⟩ ⟨0, 0⟩ = 0 := by
    rw [distance_realOps_horizontal]; norm_num
  have hd3 : distance realOps ⟨0, 0⟩ ⟨100, 0⟩ = 100 := by
    rw [distance_realOps_horizontal]; norm_num
  have hmax := realOps_dblMax_gt
  have hn0 : RRT.getNearestNodeIndex realOps
      { stepSize := 20, maxIterations := 2, tree := [⟨⟨0, 0⟩, -1⟩], path := [] } ⟨15, 0⟩ = 0 :=
    getNearestNodeIndex_singleton realOps _ ⟨⟨0, 0⟩, -1⟩ _ rfl (by rw [hd1]; linarith)
  have hn1 : RRT.getNearestNodeIndex realOps
      { stepSize := 20, maxIterations := 2, tree := [⟨⟨0, 0⟩, -1⟩], path := [] } ⟨0, 0⟩ = 0 :=
    getNearestNodeIndex_singleton realOps _ ⟨⟨0, 0⟩, -1⟩ _ rfl (by rw [hd2]; linarith)
  have hit0 : RRT.iteration realOps
      { stepSize := 20, maxIterations := 2, tree := [⟨⟨0, 0⟩, -1⟩], path := [] }
      ⟨100, 0⟩ [⟨10, -5, 10, 10⟩] ⟨15, 0⟩ =
      some ({ stepSize := 20, maxIterations := 2, tree := [⟨⟨0, 0⟩, -1⟩], path := [] },
        false) := by
    simp only [RRT.iteration, hn0]
    norm_num [RRT.extend, hd1, collisionWithObstacles, pointInRectangle]
  have hit1 : RRT.iteration realOps
      { stepSize := 20, maxIterations := 2, tree := [⟨⟨0, 0⟩, -1⟩], path := [] }
      ⟨100, 0⟩ [⟨10, -5, 10, 10⟩] ⟨0, 0⟩ =
      some ({ stepSize := 20, maxIterations := 2,
              tree := [⟨⟨0, 0⟩, -1⟩, ⟨⟨0, 0⟩, 0⟩], path := [] }, false) := by
    simp only [RRT.iteration, hn1]
    norm_num [RRT.extend, hd2, hd3, collisionWithObstacles, pointInRectangle]
  have hrun : RRT.generateRRT realOps (randFirst 15 0) (RRT.ctor 20 2) ⟨0, 0⟩ ⟨100, 0⟩
      [⟨10, -5, 10, 10⟩] =
      generateRRTLoop realOps (randFirst 15 0) ⟨100, 0⟩ [⟨10, -5, 10, 10⟩] 2 0
        { stepSize := 20, maxIterations := 2, tree := [⟨⟨0, 0⟩, -1⟩], path := [] } := rfl
  rw [hrun, generateRRTLoop_succ_continue _ _ _ _ 1 0 _ _ (by rw [hq0]; exact hit0),
    generateRRTLoop_succ_continue _ _ _ _ 0 (0 + 1) _ _ (by rw [hq1]; exact hit1)]
  rfl

/-- C5: after a run of `generateRRT` on a fresh RRT no node at an index `i > 0`
lies in an obstacle rectangle, and a loop body whose steered point collides
leaves the planner state (the tree included) as it was and does not break. -/
theorem C5_no_inserted_node_collides (m : DoubleOps F) (rand : Nat → Nat) (stepSize : F)
    (maxIterations : Int) (start goal : Point F) (obstacles : List (Rectangle F))
    (rrt : RRT F) (o : Outcome)
    (h : RRT.generateRRT m rand (RRT.ctor stepSize maxIterations) start goal obstacles
      = some (rrt, o)) :
    (∀ (i : Nat) (node : Node F), 0 < i → rrt.getTree[i]? = some node →
      ∀ r ∈ obstacles, pointInRectangle node.point r = false) ∧
    (∀ (self : RRT F) (q : Point F) (k : Nat) (nearest : Node F),
      self.getNearestNodeIndex m q = (k : Int) → self.tree[k]? = some nearest →
      collisionWithObstacles (self.extend m nearest.point q) obstacles = true →
      self.iteration m goal obstacles q = some (self, false)) := by
  constructor
  · intro i node hi hnode
    have hcol := ((generateRRT_tree m rand stepSize maxIterations start goal obstacles rrt o h).2
      i node hi hnode).2
    exact (collisionWithObstacles_eq_false_iff node.point obstacles).mp hcol
  · intro self q k nearest hidx hk hcol
    rcases iteration_cases m self goal obstacles q with ⟨hneg, _⟩ | ⟨k2, nd, hk2, hidx2, hc⟩
    · rw [hidx] at hneg; omega
    · have hkk : k2 = k := by rw [hidx] at hidx2; omega
      subst hkk
      rw [hk] at hk2
      simp only [Option.some.injEq] at hk2
      subst hk2
      rcases hc with ⟨_, he⟩ | ⟨hf, _, _⟩ | ⟨hf, _, _⟩
      · exact he
      · rw [hcol] at hf; cases hf
      · rw [hcol] at hf; cases hf

/-- C5, witness: the two-iteration run whose first steered point is rejected. -/
theorem C5_no_inserted_node_collides_witness :
    RRT.generateRRT realOps (randFirst 15 0) (RRT.ctor 20 2) ⟨0, 0⟩ ⟨100, 0⟩
        [⟨10, -5, 10, 10⟩] =
      some ({ stepSize := 20, maxIterations := 2,
              tree := [⟨⟨0, 0⟩, -1⟩, ⟨⟨0, 0⟩, 0⟩], path := [] }, Outcome.Exhausted) ∧
    ((∀ (i : Nat) (node : Node ℝ), 0 < i →
        ([⟨⟨0, 0⟩, -1⟩, ⟨⟨0, 0⟩, 0⟩] : List (Node ℝ))[i]? = some node →
        ∀ r ∈ ([⟨10, -5, 10, 10⟩] : List (Rectangle ℝ)), pointInRectangle node.point r = false) ∧
      (∀ (self : RRT ℝ) (q : Point ℝ) (k : Nat) (nearest : Node ℝ),
        self.getNearestNodeIndex realOps q = (k : Int) → self.tree[k]? = some nearest →
        collisionWithObstacles (self.extend realOps nearest.point q)
          [⟨10, -5, 10, 10⟩] = true →
        self.iteration realOps ⟨100, 0⟩ [⟨10, -5, 10, 10⟩] q = some (self, false))) :=
  ⟨run_rejected_example,
    C5_no_inserted_node_collides realOps (randFirst 15 0) 20 2 ⟨0, 0⟩ ⟨100, 0⟩
      [⟨10, -5, 10, 10⟩] _ _ run_rejected_example⟩

end C5

section C7

variable {F : Type} [LinearOrder F] [Add F] [Sub F]

/-- When no node of the tree is at a distance below `dblMax` from the query,
the scan never updates its result and returns the sentinel `-1`. -/
theorem getNearestNodeIndex_eq_neg_one (m : DoubleOps F) (self : RRT F) (q : Point F)
    (h : ∀ n ∈ self.tree, ¬ distance m n.point q < m.dblMax) :
    self.getNearestNodeIndex m q = -1 := by
  rcases getNearestNodeIndex_spec m self q with ⟨hres, _⟩ | ⟨k, nd, hk, _, hlt, _⟩
  · exact hres
  · exact absurd hlt (h nd (List.getElem?_mem hk))

/-- When some node is at a distance below `dblMax` from the query, the scan
returns the first index among the nodes of least distance. -/
theorem getNearestNodeIndex_of_exists (m : DoubleOps F) (self : RRT F) (q : Point F)
    (h : ∃ n ∈ self.tree, distance m n.point q < m.dblMax) :
    ∃ (i : Nat) (node : Node F), self.getNearestNodeIndex m q = (i : Int) ∧
      self.tree[i]? = some node ∧
      (∀ (j : Nat) (n : Node F), self.tree[j]? = some n →
        distance m node.point q ≤ distance m n.point q) ∧
      (∀ (j : Nat) (n : Node F), j < i → self.tree[j]? = some n →
        distance m node.point q < distance m n.point q) := by
  rcases getNearestNodeIndex_spec m self q with ⟨_, hall⟩ | ⟨k, nd, hk, hres, _, hmin, htie⟩
  · obtain ⟨n, hn, hlt⟩ := h
    exact absurd hlt (not_lt.mpr (hall n hn))
  · exact ⟨k, nd, hres, hk, hmin, htie⟩

/-- The scan run on the tree [(0,0), (30,0), (10,0), (20,0)] with the query
(15,0): the distances are 15, 15, 5, 5 and the first node at distance 5 wins. -/
theorem getNearestNodeIndex_example_tie :
    RRT.getNearestNodeIndex realOps
      { stepSize := 20, maxIterations := 5,
        tree := [⟨⟨0, 0⟩, -1⟩, ⟨⟨30, 0⟩, 0⟩, ⟨⟨10, 0⟩, 0⟩, ⟨⟨20, 0⟩, 2⟩], path := [] }
      ⟨15, 0⟩ = 2 := by
  have hd0 : distance realOps ⟨0, 0⟩ ⟨15, 0⟩ = 15 := by
    rw [distance_realOps_horizontal]; norm_num
  have hd1 : distance realOps ⟨30, 0⟩ ⟨15, 0⟩ = 15 := by
    rw [distance_realOps_horizontal]; norm_num
  have hd2 : distance realOps ⟨10, 0⟩ ⟨15, 0⟩ = 5 := by
    rw [distance_realOps_horizontal]; norm_num
  have hd3 : distance realOps ⟨20, 0⟩ ⟨15, 0⟩ = 5 := by
    rw [distance_realOps_horizontal]; norm_num
  have hmax : (15 : ℝ) < realOps.dblMax := by
    have := realOps_dblMax_gt
    linarith
  simp only [RRT.getNearestNodeIndex, getNearestNodeIndexLoop, hd0, hd1, hd2, hd3, hmax, if_true]
  norm_num

/-- C7 (counterexample): on the tree holding only the root (DBL_MAX, 0), as
`generateRRT` builds it for that start, the query (0,0) is at distance DBL_MAX
(in IEEE arithmetic the square overflows and the distance is +inf); the test
`d < minDistance` fails and the result is the sentinel -1 instead of index 0. -/
theorem C7_root_only_far_query :
    RRT.getNearestNodeIndex realOps
      { stepSize := 20, maxIterations := 1, tree := [⟨⟨realOps.dblMax, 0⟩, -1⟩], path := [] }
      ⟨0, 0⟩ = -1 := by
  apply getNearestNodeIndex_eq_neg_one
  intro n hn
  simp only [List.mem_singleton] at hn
  subst hn
  rw [distance_realOps_horizontal, not_lt]
  have := realOps_dblMax_gt
  rw [sub_zero, abs_of_pos (by linarith)]

end C7

section C7Laws

variable {F : Type} [LT F] [LE F] [DecidableRel ((· < ·) : F → F → Prop)] [Add F] [Sub F]

/-- A linear order satisfies the comparison laws. -/
theorem comparisonLaws_of_linearOrder (G : Type) [LinearOrder G] : ComparisonLaws G where
  lt_irrefl := fun a => lt_irrefl a
  lt_trans := fun _ _ _ h1 h2 => lt_trans h1 h2
  not_lt_of_le := fun _ _ h => not_lt.mpr h
  lt_of_le_of_lt := fun _ _ _ h1 h2 => lt_of_le_of_lt h1 h2

/-- What the scan returns under the comparison laws alone (no totality, so NaN
distances are allowed): either no node beats the running minimum and the
running index is returned, or the result is the position `i + k` of a node that
beats the running minimum, than which no node is strictly closer, and to which
no earlier node is at most as far. -/
theorem getNearestNodeIndexLoop_laws (hF : ComparisonLaws F) (m : DoubleOps F) (q : Point F)
    (l : List (Node F)) :
    ∀ (i : Int) (minDistance : F) (nearest : Int),
      (getNearestNodeIndexLoop m q l i minDistance nearest = nearest ∧
          ∀ n ∈ l, ¬ distance m n.point q < minDistance) ∨
      (∃ (k : Nat) (node : Node F), l[k]? = some node ∧
          getNearestNodeIndexLoop m q l i minDistance nearest = i + k ∧
          distance m node.point q < minDistance ∧
          (∀ (j : Nat) (n : Node F), l[j]? = some n →
            ¬ distance m n.point q < distance m node.point q) ∧
          (∀ (j : Nat) (n : Node F), j < k → l[j]? = some n →
            ¬ distance m n.point q ≤ distance m node.point q)) := by
  induction l with
  | nil =>
    intro i minDistance nearest
    left
    simp [getNearestNodeIndexLoop]
  | cons node rest ih =>
    intro i minDistance nearest
    by_cases hd : distance m node.point q < minDistance
    · have hstep : getNearestNodeIndexLoop m q (node :: rest) i minDistance nearest
          = getNearestNodeIndexLoop m q rest (i + 1) (distance m node.point q) i := by
        simp [getNearestNodeIndexLoop, hd]
      rcases ih (i + 1) (distance m node.point q) i with
        ⟨hres, hall⟩ | ⟨k, nd, hk, hres, hlt, hmin, htie⟩
      · right
        refine ⟨0, node, by simp, ?_, hd, ?_, ?_⟩
        · rw [hstep, hres]; simp
        · intro j n hj
          cases j with
          | zero => simp at hj; subst hj; exact hF.lt_irrefl _
          | succ j =>
            simp at hj
            exact hall n (List.getElem?_mem hj)
        · intro j n hj0; omega
      · right
        refine ⟨k + 1, nd, by simpa using hk, ?_, hF.lt_trans _ _ _ hlt hd, ?_, ?_⟩
        · rw [hstep, hres]; push_cast; ring
        · intro j n hj
          cases j with
          | zero =>
            simp at hj; subst hj
            intro hcon
            exact hF.lt_irrefl _ (hF.lt_trans _ _ _ hcon hlt)
          | succ j => simp at hj; exact hmin j n hj
        · intro j n hjk hj
          cases j with
          | zero =>
            simp at hj; subst hj
            intro hcon
            exact hF.not_lt_of_le _ _ hcon hlt
          | succ j => simp at hj; exact htie j n (by omega) hj
    · have hstep : getNearestNodeIndexLoop m q (node :: rest) i minDistance nearest
          = getNearestNodeIndexLoop m q rest (i + 1) minDistance nearest := by
        simp [getNearestNodeIndexLoop, hd]
      rcases ih (i + 1) minDistance nearest with
        ⟨hres, hall⟩ | ⟨k, nd, hk, hres, hlt, hmin, htie⟩
      · left
        refine ⟨by rw [hstep, hres], ?_⟩
        intro n hn
        rcases List.mem_cons.mp hn with rfl | hn
        · exact hd
        · exact hall n hn
      · right
        refine ⟨k + 1, nd, by simpa using hk, ?_, hlt, ?_, ?_⟩
        · rw [hstep, hres]; push_cast; ring
        · intro j n hj
          cases j with
          | zero =>
            simp at hj; subst hj
            intro hcon
            exact hd (hF.lt_trans _ _ _ hcon hlt)
          | succ j => simp at hj; exact hmin j n hj
        · intro j n hjk hj
          cases j with
          | zero =>
            simp at hj; subst hj
            intro hcon
            exact hd (hF.lt_of_le_of_lt _ _ _ hcon hlt)
          | succ j => simp at hj; exact htie j n (by omega) hj

/-- C7 (amended): for comparisons obeying the laws of `double` comparisons (NaN
allowed), if some node of the tree is at a computed distance below
`numeric_limits<double>::max()` from the query, `getNearestNodeIndex` returns an
index `i` of the tree whose node is below that maximum too, no node is strictly
closer to the query than node `i`, no earlier node is at most as far as node `i`
(so node `i` minimises the distance among the nodes whose distance is not NaN,
and the earliest-inserted node wins exact ties), and on a tree holding only the
root the result is 0. -/
theorem C7_nearest_minimises (hF : ComparisonLaws F) (m : DoubleOps F) (self : RRT F)
    (q : Point F) (h : ∃ n ∈ self.tree, distance m n.point q < m.dblMax) :
    ∃ (i : Nat) (node : Node F), self.getNearestNodeIndex m q = (i : Int) ∧
      self.tree[i]? = some node ∧
      distance m node.point q < m.dblMax ∧
      (∀ (j : Nat) (n : Node F), self.tree[j]? = some n →
        ¬ distance m n.point q < distance m node.point q) ∧
      (∀ (j : Nat) (n : Node F), j < i → self.tree[j]? = some n →
        ¬ distance m n.point q ≤ distance m node.point q) ∧
      (∀ (j : Nat) (n : Node F), self.tree[j]? = some n →
        (distance m node.point q ≤ distance m n.point q ∨
          distance m n.point q < distance m node.point q) →
        distance m node.point q ≤ distance m n.point q) ∧
      (∀ (j : Nat) (n : Node F), j < i → self.tree[j]? = some n →
        (distance m node.point q < distance m n.point q ∨
          distance m n.point q ≤ distance m node.point q) →
        distance m node.point q < distance m n.point q) ∧
      (∀ root : Node F, self.tree = [root] → self.getNearestNodeIndex m q = 0) := by
  rcases getNearestNodeIndexLoop_laws hF m q self.tree 0 m.dblMax (-1) with
    ⟨_, hall⟩ | ⟨k, nd, hk, hres, hlt, hmin, htie⟩
  · obtain ⟨n, hn, hnlt⟩ := h
    exact absurd hnlt (hall n hn)
  · have hres2 : self.getNearestNodeIndex m q = (k : Int) := by
      simpa [RRT.getNearestNodeIndex] using hres
    refine ⟨k, nd, hres2, hk, hlt, hmin, htie, ?_, ?_, ?_⟩
    · intro j n hj hcmp
      rcases hcmp with hle | hgt
      · exact hle
      · exact absurd hgt (hmin j n hj)
    · intro j n hjk hj hcmp
      rcases hcmp with hlt2 | hle
      · exact hlt2
      · exact absurd hle (htie j n hjk hj)
    · intro root hroot
      have hklt := (List.getElem?_eq_some.mp hk).1
      rw [hroot] at hklt
      simp only [List.length_singleton] at hklt
      rw [hres2]
      omega

end C7Laws

section C7Witness

/-- C7 (amended), witness: the real numbers with the tree
[(0,0), (30,0), (10,0), (20,0)] and the query (15,0); the nodes at indices 2 and
3 tie at distance 5. -/
theorem C7_nearest_minimises_witness :
    ComparisonLaws ℝ ∧
    (∃ n ∈ ({ stepSize := 20, maxIterations := 5,
              tree := [⟨⟨0, 0⟩, -1⟩, ⟨⟨30, 0⟩, 0⟩, ⟨⟨10, 0⟩, 0⟩, ⟨⟨20, 0⟩, 2⟩],
              path := [] } : RRT ℝ).tree,
        distance realOps n.point ⟨15, 0⟩ < realOps.dblMax) ∧
    ∃ (i : Nat) (node : Node ℝ),
      RRT.getNearestNodeIndex realOps
        { stepSize := 20, maxIterations := 5,
          tree := [⟨⟨0, 0⟩, -1⟩, ⟨⟨30, 0⟩, 0⟩, ⟨⟨10, 0⟩, 0⟩, ⟨⟨20, 0⟩, 2⟩],
          path := [] } ⟨15, 0⟩ = (i : Int) ∧
      ({ stepSize := 20, maxIterations := 5,
         tree := [⟨⟨0, 0⟩, -1⟩, ⟨⟨30, 0⟩, 0⟩, ⟨⟨10, 0⟩, 0⟩, ⟨⟨20, 0⟩, 2⟩],
         path := [] } : RRT ℝ).tree[i]? = some node ∧
      distance realOps node.point ⟨15, 0⟩ < realOps.dblMax ∧
      (∀ (j : Nat) (n : Node ℝ),
        ({ stepSize := 20, maxIterations := 5,
           tree := [⟨⟨0, 0⟩, -1⟩, ⟨⟨30, 0⟩, 0⟩, ⟨⟨10, 0⟩, 0⟩, ⟨⟨20, 0⟩, 2⟩],
           path := [] } : RRT ℝ).tree[j]? = some n →
        ¬ distance realOps n.point ⟨15, 0⟩ < distance realOps node.point ⟨15, 0⟩) ∧
      (∀ (j : Nat) (n : Node ℝ), j < i →
        ({ stepSize := 20, maxIterations := 5,
           tree := [⟨⟨0, 0⟩, -1⟩, ⟨⟨30, 0⟩, 0⟩, ⟨⟨10, 0⟩, 0⟩, ⟨⟨20, 0⟩, 2⟩],
           path := [] } : RRT ℝ).tree[j]? = some n →
        ¬ distance realOps n.point ⟨15, 0⟩ ≤ distance realOps node.point ⟨15, 0⟩) ∧
      (∀ (j : Nat) (n : Node ℝ),
        ({ stepSize := 20, maxIterations := 5,
           tree := [⟨⟨0, 0⟩, -1⟩, ⟨⟨30, 0⟩, 0⟩, ⟨⟨10, 0⟩, 0⟩, ⟨⟨20, 0⟩, 2⟩],
           path := [] } : RRT ℝ).tree[j]? = some n →
        (distance realOps node.point ⟨15, 0⟩ ≤ distance realOps n.point ⟨15, 0⟩ ∨
          distance realOps n.point ⟨15, 0⟩ < distance realOps node.point ⟨15, 0⟩) →
        distance realOps node.point ⟨15, 0⟩ ≤ distance realOps n.point ⟨15, 0⟩) ∧
      (∀ (j : Nat) (n : Node ℝ), j < i →
        ({ stepSize := 20, maxIterations := 5,
           tree := [⟨⟨0, 0⟩, -1⟩, ⟨⟨30, 0⟩, 0⟩, ⟨⟨10, 0⟩, 0⟩, ⟨⟨20, 0⟩, 2⟩],
           path := [] } : RRT ℝ).tree[j]? = some n →
        (distance realOps node.point ⟨15, 0⟩ < distance realOps n.point ⟨15, 0⟩ ∨
          distance realOps n.point ⟨15, 0⟩ ≤ distance realOps node.point ⟨15, 0⟩) →
        distance realOps node.point ⟨15, 0⟩ < distance realOps n.point ⟨15, 0⟩) ∧
      (∀ root : Node ℝ,
        ({ stepSize := 20, maxIterations := 5,
           tree := [⟨⟨0, 0⟩, -1⟩, ⟨⟨30, 0⟩, 0⟩, ⟨⟨10, 0⟩, 0⟩, ⟨⟨20, 0⟩, 2⟩],
           path := [] } : RRT ℝ).tree = [root] →
        RRT.getNearestNodeIndex realOps
          { stepSize := 20, maxIterations := 5,
            tree := [⟨⟨0, 0⟩, -1⟩, ⟨⟨30, 0⟩, 0⟩, ⟨⟨10, 0⟩, 0⟩, ⟨⟨20, 0⟩, 2⟩],
            path := [] } ⟨15, 0⟩ = 0) := by
  have hF : ComparisonLaws ℝ := comparisonLaws_of_linearOrder ℝ
  have h : ∃ n ∈ ({ stepSize := 20, maxIterations := 5,
                    tree := [⟨⟨0, 0⟩, -1⟩, ⟨⟨30, 0⟩, 0⟩, ⟨⟨10, 0⟩, 0⟩, ⟨⟨20, 0⟩, 2⟩],
                    path := [] } : RRT ℝ).tree,
      distance realOps n.point ⟨15, 0⟩ < realOps.dblMax := by
    refine ⟨⟨⟨0, 0⟩, -1⟩, by simp, ?_⟩
    rw [distance_realOps_horizontal]
    have := realOps_dblMax_gt
    norm_num
    linarith
  exact ⟨hF, h, C7_nearest_minimises hF realOps _ ⟨15, 0⟩ h⟩

end C7Witness

section C8

variable {F : Type} [LinearOrder F] [Add F] [Sub F] [Mul F]

/-- The loop body completes (no lookup outside the tree) when some node is at a
distance below `dblMax` from the sampled point. -/
theorem iteration_isSome (m : DoubleOps F) (s : RRT F) (goal : Point F)
    (obstacles : List (Rectangle F)) (q : Point F)
    (h : ∃ n ∈ s.tree, distance m n.point q < m.dblMax) :
    ∃ (s1 : RRT F) (b : Bool), s.iteration m goal obstacles q = some (s1, b) := by
  rcases iteration_cases m s goal obstacles q with ⟨hneg, _⟩ | ⟨k, nd, _, _, hc⟩
  · obtain ⟨i, _, hres, _⟩ := getNearestNodeIndex_of_exists m s q h
    rw [hres] at hneg; omega
  · rcases hc with ⟨_, he⟩ | ⟨_, _, he⟩ | ⟨_, _, he⟩ <;> exact ⟨_, _, he⟩

/-- The loop completes when the root is at a distance below `dblMax` from every
point it samples. -/
theorem generateRRTLoop_isSome (m : DoubleOps F) (rand : Nat → Nat) (start goal : Point F)
    (obstacles : List (Rectangle F)) :
    ∀ (n i : Nat) (s : RRT F), s.tree[0]? = some { point := start, parentIndex := -1 } →
      (∀ j : Nat, i ≤ j → j < i + n → distance m start (randomPoint m rand j) < m.dblMax) →
      ∃ (s1 : RRT F) (o : Outcome),
        generateRRTLoop m rand goal obstacles n i s = some (s1, o) := by
  intro n
  induction n with
  | zero => intro i s _ _; exact ⟨s, Outcome.Exhausted, rfl⟩
  | succ n ih =>
    intro i s h0 hd
    have hroot : ∃ nd ∈ s.tree, distance m nd.point (randomPoint m rand i) < m.dblMax :=
      ⟨_, List.getElem?_mem h0, hd i (le_refl _) (by omega)⟩
    obtain ⟨s1, b, hit⟩ := iteration_isSome m s goal obstacles _ hroot
    cases b with
    | true => exact ⟨s1, Outcome.Found, generateRRTLoop_succ_break m rand goal obstacles n i s s1 hit⟩
    | false =>
      rw [generateRRTLoop_succ_continue m rand goal obstacles n i s s1 hit]
      apply ih (i + 1) s1
      · rcases iteration_tree m s goal obstacles _ s1 false hit with ht | ⟨_, _, _, _, _, ht⟩
        · rw [ht]; exact h0
        · rw [ht, List.getElem?_append_left (List.getElem?_eq_some.mp h0).1]; exact h0
      · intro j hj1 hj2
        exact hd j (by omega) (by omega)

/-- C8 (counterexample): with the start (-DBL_MAX, 0) the root is inserted, the
first sample (0,0) is at distance DBL_MAX from it (+inf in IEEE arithmetic),
`getNearestNodeIndex` returns -1 on the non-empty tree and the lookup
`tree[nearestNodeIndex]` of `generateRRT` is outside the vector. -/
theorem C8_far_start_lookup_out_of_bounds :
    RRT.getNearestNodeIndex realOps
      { stepSize := 20, maxIterations := 1, tree := [⟨⟨-realOps.dblMax, 0⟩, -1⟩], path := [] }
      (randomPoint realOps (randFirst 0 0) 0) = -1 ∧
    RRT.generateRRT realOps (randFirst 0 0) (RRT.ctor 20 1) ⟨-realOps.dblMax, 0⟩ ⟨30, 0⟩ []
      = none := by
  have hq : randomPoint realOps (randFirst 0 0) 0 = ⟨0, 0⟩ := by
    simpa using randomPoint_randFirst 0 0 (by omega) (by omega)
  have hn : RRT.getNearestNodeIndex realOps
      { stepSize := 20, maxIterations := 1, tree := [⟨⟨-realOps.dblMax, 0⟩, -1⟩], path := [] }
      (randomPoint realOps (randFirst 0 0) 0) = -1 := by
    apply getNearestNodeIndex_eq_neg_one
    intro n hn
    simp only [List.mem_singleton] at hn
    subst hn
    rw [hq, distance_realOps_horizontal, not_lt]
    have := realOps_dblMax_gt
    rw [sub_zero, abs_neg, abs_of_pos (by linarith)]
  refine ⟨hn, ?_⟩
  have hrun : RRT.generateRRT realOps (randFirst 0 0) (RRT.ctor 20 1) ⟨-realOps.dblMax, 0⟩
      ⟨30, 0⟩ [] =
      generateRRTLoop realOps (randFirst 0 0) ⟨30, 0⟩ [] 1 0
        { stepSize := 20, maxIterations := 1, tree := [⟨⟨-realOps.dblMax, 0⟩, -1⟩],
          path := [] } := rfl
  rw [hrun]
  apply generateRRTLoop_succ_none
  simp [RRT.iteration, hn]

/-- C8 (amended): `getNearestNodeIndex` returns the sentinel -1 exactly when no
node of the tree is at a computed distance below `numeric_limits<double>::max()`
from the query (so always on the empty tree); every other result is an index in
`[0, tree.size())`; and when every sampled point is at a computed distance below
that maximum from `start`, `generateRRT` on a fresh RRT completes with every
lookup `tree[nearestNodeIndex]` inside the tree. -/
theorem C8_nearest_index_in_bounds (m : DoubleOps F) (rand : Nat → Nat) (stepSize : F)
    (maxIterations : Int) (start goal : Point F) (obstacles : List (Rectangle F))
    (h : ∀ i : Nat, (i : Int) < maxIterations →
      distance m start (randomPoint m rand i) < m.dblMax) :
    (∀ (self : RRT F) (q : Point F),
      (self.getNearestNodeIndex m q = -1 ↔
        ∀ n ∈ self.tree, ¬ distance m n.point q < m.dblMax) ∧
      (self.getNearestNodeIndex m q ≠ -1 →
        0 ≤ self.getNearestNodeIndex m q ∧
        self.getNearestNodeIndex m q < (self.tree.length : Int))) ∧
    (∃ (rrt : RRT F) (o : Outcome),
      RRT.generateRRT m rand (RRT.ctor stepSize maxIterations) start goal obstacles
        = some (rrt, o)) := by
  constructor
  · intro self q
    rcases getNearestNodeIndex_spec m self q with ⟨hres, hall⟩ | ⟨k, nd, hk, hres, hlt, _⟩
    · refine ⟨⟨fun _ n hn => not_lt.mpr (hall n hn), fun _ => hres⟩, fun hne => absurd hres hne⟩
    · have hklt := (List.getElem?_eq_some.mp hk).1
      refine ⟨⟨fun hneg => ?_, fun hall => absurd hlt (hall nd (List.getElem?_mem hk))⟩,
        fun _ => ?_⟩
      · rw [hres] at hneg; omega
      · rw [hres]; omega
  · apply generateRRTLoop_isSome m rand start goal obstacles
    · simp [RRT.ctor]
    · intro j _ hj
      apply h j
      simp only [RRT.ctor] at hj
      omega

/-- C8 (amended), witness: start (0,0) and the sample (15,0). -/
theorem C8_nearest_index_in_bounds_witness :
    (∀ i : Nat, (i : Int) < 1 →
      distance realOps ⟨0, 0⟩ (randomPoint realOps (randFirst 15 0) i) < realOps.dblMax) ∧
    ((∀ (self : RRT ℝ) (q : Point ℝ),
      (self.getNearestNodeIndex realOps q = -1 ↔
        ∀ n ∈ self.tree, ¬ distance realOps n.point q < realOps.dblMax) ∧
      (self.getNearestNodeIndex realOps q ≠ -1 →
        0 ≤ self.getNearestNodeIndex realOps q ∧
        self.getNearestNodeIndex realOps q < (self.tree.length : Int))) ∧
    (∃ (rrt : RRT ℝ) (o : Outcome),
      RRT.generateRRT realOps (randFirst 15 0) (RRT.ctor 20 1) ⟨0, 0⟩ ⟨30, 0⟩ []
        = some (rrt, o))) := by
  have h : ∀ i : Nat, (i : Int) < 1 →
      distance realOps ⟨0, 0⟩ (randomPoint realOps (randFirst 15 0) i) < realOps.dblMax := by
    intro i hi
    have hi0 : i = 0 := by omega
    subst hi0
    have hq : randomPoint realOps (randFirst 15 0) 0 = ⟨15, 0⟩ := by
      simpa using randomPoint_randFirst 15 0 (by omega) (by omega)
    rw [hq, distance_realOps_horizontal]
    have := realOps_dblMax_gt
    norm_num
    linarith
  exact ⟨h, C8_nearest_index_in_bounds realOps (randFirst 15 0) 20 1 ⟨0, 0⟩ ⟨30, 0⟩ [] h⟩

end C8

section C3

variable {F : Type} [LinearOrder F] [Add F] [Sub F] [Mul F]

/-- C3 (counterexample): with the start (0, -DBL_MAX), one iteration and the
sample (0,0), the scan of the root-only tree returns -1 (the root is at distance
DBL_MAX, +inf in IEEE arithmetic); line 55 then reads `tree[-1]` and line 59
stores -1 as the parent index of the node at index 1.  The run has no defined
result, and none with parent indices in `[0, i)`. -/
theorem C3_far_start_parent_index_is_sentinel :
    RRT.getNearestNodeIndex realOps
      { stepSize := 20, maxIterations := 1, tree := [⟨⟨0, -realOps.dblMax⟩, -1⟩], path := [] }
      (randomPoint realOps (randFirst 0 0) 0) = -1 ∧
    RRT.generateRRT realOps (randFirst 0 0) (RRT.ctor 20 1) ⟨0, -realOps.dblMax⟩ ⟨30, 0⟩ []
      = none ∧
    ¬ ∃ (rrt : RRT ℝ) (o : Outcome),
      RRT.generateRRT realOps (randFirst 0 0) (RRT.ctor 20 1) ⟨0, -realOps.dblMax⟩ ⟨30, 0⟩ []
        = some (rrt, o) ∧
      ∀ (i : Nat) (node : Node ℝ), 0 < i → rrt.getTree[i]? = some node →
        0 ≤ node.parentIndex ∧ node.parentIndex < (i : Int) := by
  have hq : randomPoint realOps (randFirst 0 0) 0 = ⟨0, 0⟩ := by
    simpa using randomPoint_randFirst 0 0 (by omega) (by omega)
  have hn : RRT.getNearestNodeIndex realOps
      { stepSize := 20, maxIterations := 1, tree := [⟨⟨0, -realOps.dblMax⟩, -1⟩], path := [] }
      (randomPoint realOps (randFirst 0 0) 0) = -1 := by
    apply getNearestNodeIndex_eq_neg_one
    intro n hn
    simp only [List.mem_singleton] at hn
    subst hn
    rw [hq, distance_realOps_vertical, not_lt]
    have := realOps_dblMax_gt
    rw [sub_zero, abs_neg, abs_of_pos (by linarith)]
  have hrun : RRT.generateRRT realOps (randFirst 0 0) (RRT.ctor 20 1) ⟨0, -realOps.dblMax⟩
      ⟨30, 0⟩ [] = none := by
    have hunf : RRT.generateRRT realOps (randFirst 0 0) (RRT.ctor 20 1) ⟨0, -realOps.dblMax⟩
        ⟨30, 0⟩ [] =
        generateRRTLoop realOps (randFirst 0 0) ⟨30, 0⟩ [] 1 0
          { stepSize := 20, maxIterations := 1, tree := [⟨⟨0, -realOps.dblMax⟩, -1⟩],
            path := [] } := rfl
    rw [hunf]
    apply generateRRTLoop_succ_none
    simp [RRT.iteration, hn]
  refine ⟨hn, hrun, ?_⟩
  rintro ⟨rrt, o, hsome, _⟩
  rw [hrun] at hsome
  cases hsome

/-- C3 (amended): when every sampled point of the run is at a computed distance
below `numeric_limits<double>::max()` from `start`, `generateRRT` on a fresh RRT
completes without reading outside the tree, `tree[0]` is `{start, -1}`, every
node at an index `i > 0` has a parent index `p` with `0 <= p < i`, and following
parent indices from any node reaches index 0. -/
theorem C3_parent_index_invariant (m : DoubleOps F) (rand : Nat → Nat) (stepSize : F)
    (maxIterations : Int) (start goal : Point F) (obstacles : List (Rectangle F))
    (h : ∀ i : Nat, (i : Int) < maxIterations →
      distance m start (randomPoint m rand i) < m.dblMax) :
    ∃ (rrt : RRT F) (o : Outcome),
      RRT.generateRRT m rand (RRT.ctor stepSize maxIterations) start goal obstacles
        = some (rrt, o) ∧
      (∃ root : Node F, rrt.getTree[0]? = some root ∧ root.point = start ∧
        root.parentIndex = -1) ∧
      (∀ (i : Nat) (node : Node F), 0 < i → rrt.getTree[i]? = some node →
        0 ≤ node.parentIndex ∧ node.parentIndex < (i : Int)) ∧
      (∀ (i : Nat), i < rrt.getTree.length →
        ∃ k : Nat, k ≤ i ∧ followParents rrt.getTree k (i : Int) = 0) := by
  obtain ⟨rrt, o, hrun⟩ : ∃ (rrt : RRT F) (o : Outcome),
      RRT.generateRRT m rand (RRT.ctor stepSize maxIterations) start goal obstacles
        = some (rrt, o) := by
    apply generateRRTLoop_isSome m rand start goal obstacles
    · simp [RRT.ctor]
    · intro j _ hj
      apply h j
      simp only [RRT.ctor] at hj
      omega
  obtain ⟨h0, hrest⟩ :=
    generateRRT_tree m rand stepSize maxIterations start goal obstacles rrt o hrun
  have hinv : ParentInvariant rrt.tree :=
    ⟨⟨_, h0, rfl⟩, fun i node hi hnode => (hrest i node hi hnode).1⟩
  exact ⟨rrt, o, hrun, ⟨_, h0, rfl, rfl⟩, hinv.2, followParents_reaches_root rrt.tree hinv⟩

/-- C3 (amended), witness: start (0,0), two iterations with the obstacle
[10,20] x [-5,5], samples (15,0) and (0,0), all at distance below DBL_MAX from
the start. -/
theorem C3_parent_index_invariant_witness :
    (∀ i : Nat, (i : Int) < 2 →
      distance realOps ⟨0, 0⟩ (randomPoint realOps (randFirst 15 0) i) < realOps.dblMax) ∧
    ∃ (rrt : RRT ℝ) (o : Outcome),
      RRT.generateRRT realOps (randFirst 15 0) (RRT.ctor 20 2) ⟨0, 0⟩ ⟨100, 0⟩
        [⟨10, -5, 10, 10⟩] = some (rrt, o) ∧
      (∃ root : Node ℝ, rrt.getTree[0]? = some root ∧ root.point = ⟨0, 0⟩ ∧
        root.parentIndex = -1) ∧
      (∀ (i : Nat) (node : Node ℝ), 0 < i → rrt.getTree[i]? = some node →
        0 ≤ node.parentIndex ∧ node.parentIndex < (i : Int)) ∧
      (∀ (i : Nat), i < rrt.getTree.length →
        ∃ k : Nat, k ≤ i ∧ followParents rrt.getTree k (i : Int) = 0) := by
  have h : ∀ i : Nat, (i : Int) < 2 →
      distance realOps ⟨0, 0⟩ (randomPoint realOps (randFirst 15 0) i) < realOps.dblMax := by
    intro i hi
    have hmax := realOps_dblMax_gt
    rcases Nat.eq_zero_or_pos i with rfl | hpos
    · have hq : randomPoint realOps (randFirst 15 0) 0 = ⟨15, 0⟩ := by
        simpa using randomPoint_randFirst 15 0 (by omega) (by omega)
      rw [hq, distance_realOps_horizontal]
      norm_num
      linarith
    · obtain ⟨j, rfl⟩ : ∃ j, i = j + 1 := ⟨i - 1, by omega⟩
      rw [randomPoint_randFirst_succ, distance_realOps_horizontal]
      norm_num
      linarith
  exact ⟨h, C3_parent_index_invariant realOps (randFirst 15 0) 20 2 ⟨0, 0⟩ ⟨100, 0⟩
    [⟨10, -5, 10, 10⟩] h⟩

end C3

/-! ## Path extraction on an arbitrary tree -/

section Chain

variable {F : Type}

/-- Walking from the sentinel meets no node. -/
theorem parentChain_neg_one (tree : List (Node F)) (k : Nat) : parentChain tree k (-1) = [] := by
  cases k <;> simp [parentChain]

/-- Shape of the parent chain from index `i` under the parent-index invariant:
it starts at `tree[i]`, ends at the root `tree[0]`, and each node is followed by
its parent. -/
theorem parentChain_spec (tree : List (Node F)) (hinv : ParentInvariant tree) :
    ∀ (i k : Nat), i < tree.length → i + 1 ≤ k →
      (parentChain tree k (i : Int)).head? = tree[i]? ∧
      (parentChain tree k (i : Int)).getLast? = tree[0]? ∧
      List.Chain' (fun a b : Node F => 0 ≤ a.parentIndex ∧ tree[a.parentIndex.toNat]? = some b)
        (parentChain tree k (i : Int)) := by
  intro i
  induction i using Nat.strong_induction_on with
  | _ i ih =>
    intro k hi hk
    obtain ⟨k1, rfl⟩ : ∃ k1, k = k1 + 1 := ⟨k - 1, by omega⟩
    have hnn : ¬ ((i : Int) < 0) := by omega
    have hunf : parentChain tree (k1 + 1) (i : Int)
        = tree[i] :: parentChain tree k1 tree[i].parentIndex := by
      simp only [parentChain, hnn, if_false, Int.toNat_ofNat, List.getElem?_eq_getElem hi]
    rw [hunf]
    rcases Nat.eq_zero_or_pos i with rfl | hpos
    · obtain ⟨root, hroot, hp⟩ := hinv.1
      rw [List.getElem?_eq_getElem hi] at hroot
      simp only [Option.some.injEq] at hroot
      rw [hroot, hp, parentChain_neg_one]
      simp [List.getElem?_eq_getElem hi, hroot]
    · obtain ⟨hp0, hpi⟩ := hinv.2 i tree[i] hpos (List.getElem?_eq_getElem hi)
      have hcast : ((tree[i].parentIndex.toNat : Nat) : Int) = tree[i].parentIndex := by omega
      have hplt : tree[i].parentIndex.toNat < i := by omega
      obtain ⟨hh, hl, hc⟩ := ih _ hplt k1 (by omega) (by omega)
      rw [hcast] at hh hl hc
      have hplen : tree[i].parentIndex.toNat < tree.length := by omega
      rw [List.getElem?_eq_getElem hplen] at hh
      refine ⟨by simp [List.getElem?_eq_getElem hi], ?_, ?_⟩
      · cases hrest : parentChain tree k1 tree[i].parentIndex with
        | nil => rw [hrest] at hh; simp at hh
        | cons a l =>
          rw [hrest] at hl
          rw [List.getLast?_cons_cons]
          exact hl
      · rw [List.chain'_cons']
        refine ⟨?_, hc⟩
        intro y hy
        rw [hh] at hy
        simp only [Option.mem_def, Option.some.injEq] at hy
        subst hy
        exact ⟨hp0, List.getElem?_eq_getElem hplen⟩

end Chain

section ConstructPathSpec

variable {F : Type} [LinearOrder F] [Add F] [Sub F]

/-- The loop is over once the current index is the sentinel. -/
theorem constructPathLoop_neg_one (m : DoubleOps F) (stepSize : F) (tree : List (Node F))
    (goal : Point F) (fuel : Nat) (path : List (Point F)) :
    constructPathLoop m stepSize tree goal fuel (-1) path = some path := by
  cases fuel <;> simp [constructPathLoop]

/-- A chain with no node within `stepSize` of the goal is not cut. -/
theorem cutAtGoal_eq_self (m : DoubleOps F) (stepSize : F) (goal : Point F)
    (l : List (Node F)) (h : ∀ n ∈ l, ¬ distance m n.point goal ≤ stepSize) :
    cutAtGoal m stepSize goal l = l := by
  induction l with
  | nil => rfl
  | cons a l ih =>
    have ha := h a (List.mem_cons_self a l)
    simp only [cutAtGoal, ha, if_false]
    rw [ih (fun n hn => h n (List.mem_cons_of_mem a hn))]

/-- Under the parent-index invariant the `while` loop started at index `i` ends
within `i + 1` runs of its body and appends the points of the cut parent chain. -/
theorem constructPathLoop_eq (m : DoubleOps F) (stepSize : F) (tree : List (Node F))
    (goal : Point F) (hinv : ParentInvariant tree) :
    ∀ (i fuel k : Nat) (path : List (Point F)), i < tree.length → i + 1 ≤ fuel → i + 1 ≤ k →
      constructPathLoop m stepSize tree goal fuel (i : Int) path =
        some (path ++ (cutAtGoal m stepSize goal (parentChain tree k (i : Int))).map Node.point) := by
  intro i
  induction i using Nat.strong_induction_on with
  | _ i ih =>
    intro fuel k path hi hfuel hk
    obtain ⟨f1, rfl⟩ : ∃ f1, fuel = f1 + 1 := ⟨fuel - 1, by omega⟩
    obtain ⟨k1, rfl⟩ : ∃ k1, k = k1 + 1 := ⟨k - 1, by omega⟩
    have hnn : ¬ ((i : Int) < 0) := by omega
    have hne : ¬ ((i : Int) = -1) := by omega
    have hunf : parentChain tree (k1 + 1) (i : Int)
        = tree[i] :: parentChain tree k1 tree[i].parentIndex := by
      simp only [parentChain, hnn, if_false, Int.toNat_ofNat, List.getElem?_eq_getElem hi]
    rw [hunf]
    by_cases hd : distance m tree[i].point goal ≤ stepSize
    · simp [constructPathLoop, hne, hnn, List.getElem?_eq_getElem hi, hd, cutAtGoal]
    · simp only [constructPathLoop, hne, hnn, if_false, Int.toNat_ofNat,
        List.getElem?_eq_getElem hi, hd, cutAtGoal, List.map_cons]
      rcases Nat.eq_zero_or_pos i with rfl | hpos
      · obtain ⟨root, hroot, hp⟩ := hinv.1
        rw [List.getElem?_eq_getElem hi] at hroot
        simp only [Option.some.injEq] at hroot
        rw [hroot, hp, parentChain_neg_one, constructPathLoop_neg_one]
        simp [cutAtGoal]
      · obtain ⟨hp0, hpi⟩ := hinv.2 i tree[i] hpos (List.getElem?_eq_getElem hi)
        have hcast : ((tree[i].parentIndex.toNat : Nat) : Int) = tree[i].parentIndex := by omega
        have hplt : tree[i].parentIndex.toNat < i := by omega
        have := ih _ hplt f1 k1 (path ++ [tree[i].point]) (by omega) (by omega) (by omega)
        rw [hcast] at this
        rw [this]
        simp

/-- The result of `constructPath` on a tree with the parent-index invariant. -/
theorem constructPath_eq (m : DoubleOps F) (self : RRT F) (goal : Point F) (fuel : Nat)
    (hinv : ParentInvariant self.tree) (hfuel : self.tree.length ≤ fuel) :
    self.constructPath m goal fuel =
      some { self with
        path := (self.path ++
          (cutAtGoal m self.stepSize goal (chainFromLast self.tree)).map Node.point).reverse } := by
  obtain ⟨root, hroot, _⟩ := hinv.1
  have hpos : 0 < self.tree.length := (List.getElem?_eq_some.mp hroot).1
  have hcast : ((self.tree.length : Int) - 1) = ((self.tree.length - 1 : Nat) : Int) := by omega
  have h := constructPathLoop_eq m self.stepSize self.tree goal hinv (self.tree.length - 1) fuel
    self.tree.length self.path (by omega) (by omega) (by omega)
  simp only [RRT.constructPath, chainFromLast, hcast, h]

end ConstructPathSpec

section ConstructPathExamples

/-- The loop run directly on the tree (0,0) <- (30,0), (0,0) <- (10,0) <- (20,0)
with goal (12,0) and stepSize 5: the walk from (20,0) stops at (10,0), which is
within 5 of the goal, before it reaches the root. -/
theorem constructPath_example_cut :
    RRT.constructPath realOps
        { stepSize := 5, maxIterations := 5,
          tree := [⟨⟨0, 0⟩, -1⟩, ⟨⟨30, 0⟩, 0⟩, ⟨⟨10, 0⟩, 0⟩, ⟨⟨20, 0⟩, 2⟩], path := [] }
        ⟨12, 0⟩ 4 =
      some { stepSize := 5, maxIterations := 5,
             tree := [⟨⟨0, 0⟩, -1⟩, ⟨⟨30, 0⟩, 0⟩, ⟨⟨10, 0⟩, 0⟩, ⟨⟨20, 0⟩, 2⟩],
             path := [⟨10, 0⟩, ⟨20, 0⟩] } := by
  have hd1 : distance realOps ⟨20, 0⟩ ⟨12, 0⟩ = 8 := by
    rw [distance_realOps_horizontal]; norm_num
  have hd2 : distance realOps ⟨10, 0⟩ ⟨12, 0⟩ = 2 := by
    rw [distance_realOps_horizontal]; norm_num
  have h3 : Int.toNat 3 = 3 := rfl
  have h2 : Int.toNat 2 = 2 := rfl
  norm_num [RRT.constructPath, constructPathLoop, h3, h2, hd1, hd2]

/-- A tree whose only node names itself as parent (it breaks the invariant): the
loop never ends, whatever the bound. -/
theorem constructPath_example_cycle (fuel : Nat) :
    RRT.constructPath realOps
        { stepSize := 5, maxIterations := 5, tree := [⟨⟨0, 0⟩, 0⟩], path := [] }
        ⟨12, 0⟩ fuel = none := by
  have hd : ¬ distance realOps ⟨0, 0⟩ ⟨12, 0⟩ ≤ 5 := by
    rw [distance_realOps_horizontal]; norm_num
  have hloop : ∀ (f : Nat) (path : List (Point ℝ)),
      constructPathLoop realOps 5 [⟨⟨0, 0⟩, 0⟩] ⟨12, 0⟩ f 0 path = none := by
    intro f
    induction f with
    | zero => intro path; simp [constructPathLoop]
    | succ f ih => intro path; simp [constructPathLoop, hd, ih]
  simp [RRT.constructPath, hloop]

end ConstructPathExamples

section C9

variable {F : Type} [LinearOrder F] [Add F] [Sub F]

/-- C9: on a tree with the parent-index invariant, `constructPath` started with
an empty path ends (for every bound of at least `tree.size()` loop runs, with
the same result) and leaves in `path` the reverse of the parent chain walked
from the last node, cut inclusively at its first node within `stepSize` of the
goal.  That chain starts at the last node, ends at the root and links each node
to its parent; when none of its nodes is within `stepSize` of the goal, the
path runs from `tree[0].point` to the last node's point and each path point is
followed by the point of one of its children. -/
theorem C9_constructPath_backtracks (m : DoubleOps F) (self : RRT F) (goal : Point F)
    (fuel : Nat) (hinv : ParentInvariant self.tree) (hpath : self.path = [])
    (hfuel : self.tree.length ≤ fuel) :
    self.constructPath m goal fuel =
      some { self with
        path := ((cutAtGoal m self.stepSize goal (chainFromLast self.tree)).map
          Node.point).reverse } ∧
    (chainFromLast self.tree).head? = self.tree.getLast? ∧
    (chainFromLast self.tree).getLast? = self.tree[0]? ∧
    List.Chain' (fun a b : Node F => 0 ≤ a.parentIndex ∧
      self.tree[a.parentIndex.toNat]? = some b) (chainFromLast self.tree) ∧
    ((∀ n ∈ chainFromLast self.tree, ¬ distance m n.point goal ≤ self.stepSize) →
      ∃ nodes : List (Node F),
        self.constructPath m goal fuel = some { self with path := nodes.map Node.point } ∧
        nodes.head? = self.tree[0]? ∧ nodes.getLast? = self.tree.getLast? ∧
        List.Chain' (fun a b : Node F => 0 ≤ b.parentIndex ∧
          self.tree[b.parentIndex.toNat]? = some a) nodes) := by
  have hmain := constructPath_eq m self goal fuel hinv hfuel
  rw [hpath, List.nil_append] at hmain
  obtain ⟨root, hroot, _⟩ := hinv.1
  have hpos : 0 < self.tree.length := (List.getElem?_eq_some.mp hroot).1
  have hcast : ((self.tree.length : Int) - 1) = ((self.tree.length - 1 : Nat) : Int) := by omega
  obtain ⟨hh, hl, hc⟩ := parentChain_spec self.tree hinv (self.tree.length - 1) self.tree.length
    (by omega) (by omega)
  rw [← hcast] at hh hl hc
  have hh2 : (chainFromLast self.tree).head? = self.tree.getLast? := by
    rw [List.getLast?_eq_getElem?]; exact hh
  refine ⟨hmain, hh2, hl, hc, ?_⟩
  intro hfar
  refine ⟨(chainFromLast self.tree).reverse, ?_, ?_, ?_, ?_⟩
  · rw [hmain, cutAtGoal_eq_self m self.stepSize goal _ hfar, List.map_reverse]
  · rw [List.head?_reverse]; exact hl
  · rw [List.getLast?_reverse]; exact hh2
  · rw [List.chain'_reverse]; exact hc

/-- C9, witness: the tree (0,0) <- (30,0), (0,0) <- (10,0) <- (20,0) with goal
(100,0) and stepSize 20; the chain from the last node is (20,0), (10,0), (0,0),
none of them within 20 of the goal, and the path is (0,0), (10,0), (20,0). -/
theorem C9_constructPath_backtracks_witness :
    ParentInvariant ([⟨⟨0, 0⟩, -1⟩, ⟨⟨30, 0⟩, 0⟩, ⟨⟨10, 0⟩, 0⟩, ⟨⟨20, 0⟩, 2⟩] : List (Node ℝ)) ∧
    RRT.constructPath realOps
        { stepSize := 20, maxIterations := 5,
          tree := [⟨⟨0, 0⟩, -1⟩, ⟨⟨30, 0⟩, 0⟩, ⟨⟨10, 0⟩, 0⟩, ⟨⟨20, 0⟩, 2⟩], path := [] }
        ⟨100, 0⟩ 4 =
      some { stepSize := 20, maxIterations := 5,
             tree := [⟨⟨0, 0⟩, -1⟩, ⟨⟨30, 0⟩, 0⟩, ⟨⟨10, 0⟩, 0⟩, ⟨⟨20, 0⟩, 2⟩],
             path := [⟨0, 0⟩, ⟨10, 0⟩, ⟨20, 0⟩] } := by
  have hinv : ParentInvariant
      ([⟨⟨0, 0⟩, -1⟩, ⟨⟨30, 0⟩, 0⟩, ⟨⟨10, 0⟩, 0⟩, ⟨⟨20, 0⟩, 2⟩] : List (Node ℝ)) := by
    refine ⟨⟨_, rfl, rfl⟩, ?_⟩
    intro i node hi hnode
    match i, hi, hnode with
    | 1, _, hnode => simp at hnode; subst hnode; simp
    | 2, _, hnode => simp at hnode; subst hnode; simp
    | 3, _, hnode => simp at hnode; subst hnode; simp
    | (j + 4), _, hnode => simp at hnode
  have h := (C9_constructPath_backtracks realOps
    { stepSize := 20, maxIterations := 5,
      tree := [⟨⟨0, 0⟩, -1⟩, ⟨⟨30, 0⟩, 0⟩, ⟨⟨10, 0⟩, 0⟩, ⟨⟨20, 0⟩, 2⟩], path := [] }
    ⟨100, 0⟩ 4 hinv rfl (by simp)).1
  have hd1 : distance realOps ⟨20, 0⟩ ⟨100, 0⟩ = 80 := by
    rw [distance_realOps_horizontal]; norm_num
  have hd2 : distance realOps ⟨10, 0⟩ ⟨100, 0⟩ = 90 := by
    rw [distance_realOps_horizontal]; norm_num
  have hd3 : distance realOps ⟨0, 0⟩ ⟨100, 0⟩ = 100 := by
    rw [distance_realOps_horizontal]; norm_num
  have hc : ((cutAtGoal realOps 20 ⟨100, 0⟩
      (chainFromLast [⟨⟨0, 0⟩, -1⟩, ⟨⟨30, 0⟩, 0⟩, ⟨⟨10, 0⟩, 0⟩, ⟨⟨20, 0⟩, 2⟩])).map
      Node.point).reverse = [⟨0, 0⟩, ⟨10, 0⟩, ⟨20, 0⟩] := by
    have h3 : Int.toNat 3 = 3 := rfl
    have h2 : Int.toNat 2 = 2 := rfl
    have h0 : Int.toNat 0 = 0 := rfl
    norm_num [chainFromLast, parentChain, cutAtGoal, h3, h2, h0, hd1, hd2, hd3]
  dsimp only at h
  rw [hc] at h
  exact ⟨hinv, h⟩

end C9

/-! ## Exhausted runs -/

section Exhausted

variable {F : Type} [LinearOrder F] [Add F] [Sub F] [Mul F]

/-- An `Exhausted` run of `n + 1` iterations is an `Exhausted` run of `n`
iterations followed by one loop body that does not break. -/
theorem generateRRTLoop_exhausted_prefix (m : DoubleOps F) (rand : Nat → Nat) (goal : Point F)
    (obstacles : List (Rectangle F)) :
    ∀ (n i : Nat) (s s1 : RRT F),
      generateRRTLoop m rand goal obstacles (n + 1) i s = some (s1, Outcome.Exhausted) →
      ∃ s2 : RRT F, generateRRTLoop m rand goal obstacles n i s = some (s2, Outcome.Exhausted) ∧
        s2.iteration m goal obstacles (randomPoint m rand (i + n)) = some (s1, false) := by
  intro n
  induction n with
  | zero =>
    intro i s s1 h
    cases hit : s.iteration m goal obstacles (randomPoint m rand i) with
    | none => rw [generateRRTLoop_succ_none m rand goal obstacles 0 i s hit] at h; cases h
    | some res =>
      obtain ⟨s2, b⟩ := res
      cases b with
      | true =>
        rw [generateRRTLoop_succ_break m rand goal obstacles 0 i s s2 hit] at h
        simp at h
      | false =>
        rw [generateRRTLoop_succ_continue m rand goal obstacles 0 i s s2 hit] at h
        simp only [generateRRTLoop, Option.some.injEq, Prod.mk.injEq, and_true] at h
        subst h
        exact ⟨s, rfl, hit⟩
  | succ n ih =>
    intro i s s1 h
    cases hit : s.iteration m goal obstacles (randomPoint m rand i) with
    | none => rw [generateRRTLoop_succ_none m rand goal obstacles (n + 1) i s hit] at h; cases h
    | some res =>
      obtain ⟨s2, b⟩ := res
      cases b with
      | true =>
        rw [generateRRTLoop_succ_break m rand goal obstacles (n + 1) i s s2 hit] at h
        simp at h
      | false =>
        rw [generateRRTLoop_succ_continue m rand goal obstacles (n + 1) i s s2 hit] at h
        obtain ⟨s3, h3, hit3⟩ := ih (i + 1) s2 s1 h
        refine ⟨s3, ?_, ?_⟩
        · rw [generateRRTLoop_succ_continue m rand goal obstacles n i s s2 hit]; exact h3
        · have hidx : i + (n + 1) = i + 1 + n := by omega
          rw [hidx]; exact hit3

/-- Counting one more iteration. -/
theorem acceptedCount_succ (m : DoubleOps F) (rand : Nat → Nat) (stepSize : F)
    (maxIterations : Int) (start goal : Point F) (obstacles : List (Rectangle F)) (n : Nat) :
    acceptedCount m rand stepSize maxIterations start goal obstacles (n + 1) =
      acceptedCount m rand stepSize maxIterations start goal obstacles n +
        (if acceptedAt m rand stepSize maxIterations start goal obstacles n then 1 else 0) := by
  simp only [acceptedCount, List.range_succ, List.filter_append, List.length_append]
  by_cases h : acceptedAt m rand stepSize maxIterations start goal obstacles n = true
  · simp [List.filter_cons, h]
  · simp [List.filter_cons, h]

/-- The tree of an `Exhausted` run of `n` iterations from the root state has one
node for the root and one for each iteration whose steered point did not collide. -/
theorem generateRRTLoop_exhausted_length (m : DoubleOps F) (rand : Nat → Nat) (stepSize : F)
    (maxIterations : Int) (start goal : Point F) (obstacles : List (Rectangle F)) :
    ∀ (n : Nat) (s1 : RRT F),
      generateRRTLoop m rand goal obstacles n 0
        { RRT.ctor stepSize maxIterations with tree := [{ point := start, parentIndex := -1 }] }
          = some (s1, Outcome.Exhausted) →
      s1.tree.length = 1 + acceptedCount m rand stepSize maxIterations start goal obstacles n := by
  intro n
  induction n with
  | zero =>
    intro s1 h
    simp only [generateRRTLoop, Option.some.injEq, Prod.mk.injEq, and_true] at h
    subst h
    simp [acceptedCount]
  | succ n ih =>
    intro s1 h
    obtain ⟨s2, h2, hit⟩ := generateRRTLoop_exhausted_prefix m rand goal obstacles n 0 _ s1 h
    have hlen := ih s2 h2
    rw [acceptedCount_succ, ← Nat.add_assoc, ← hlen]
    simp only [Nat.zero_add] at hit
    rcases iteration_cases m s2 goal obstacles (randomPoint m rand n) with
      ⟨_, hn⟩ | ⟨k, nd, hk, hidx, hc⟩
    · rw [hn] at hit; cases hit
    · have hnn : ¬ ((k : Int) < 0) := by omega
      have hnp : newPointAt m rand stepSize maxIterations start goal obstacles n
          = some (s2.extend m nd.point (randomPoint m rand n)) := by
        simp only [newPointAt, h2, hidx, hnn, if_false, Int.toNat_ofNat, hk]
      rcases hc with ⟨hcol, he⟩ | ⟨hcol, _, he⟩ | ⟨_, _, he⟩
      · rw [he] at hit
        simp only [Option.some.injEq, Prod.mk.injEq, and_true] at hit
        subst hit
        simp [acceptedAt, hnp, hcol]
      · rw [he] at hit
        simp only [Option.some.injEq, Prod.mk.injEq, and_true] at hit
        subst hit
        simp [acceptedAt, hnp, hcol]
      · rw [he] at hit
        simp at hit

/-- In an `Exhausted` run no loop body has inserted a node strictly within
`stepSize` of the goal. -/
theorem generateRRTLoop_exhausted_far (m : DoubleOps F) (rand : Nat → Nat) (goal : Point F)
    (obstacles : List (Rectangle F)) :
    ∀ (n i : Nat) (s s1 : RRT F),
      generateRRTLoop m rand goal obstacles n i s = some (s1, Outcome.Exhausted) →
      (∀ (j : Nat) (node : Node F), 0 < j → s.tree[j]? = some node →
        ¬ distance m node.point goal < s.stepSize) →
      ∀ (j : Nat) (node : Node F), 0 < j → s1.tree[j]? = some node →
        ¬ distance m node.point goal < s1.stepSize := by
  intro n
  induction n with
  | zero =>
    intro i s s1 h hs
    simp only [generateRRTLoop, Option.some.injEq, Prod.mk.injEq, and_true] at h
    subst h
    exact hs
  | succ n ih =>
    intro i s s1 h hs
    rcases iteration_cases m s goal obstacles (randomPoint m rand i) with
      ⟨_, hn⟩ | ⟨k, nd, hk, _, hc⟩
    · rw [generateRRTLoop_succ_none m rand goal obstacles n i s hn] at h; cases h
    · rcases hc with ⟨_, he⟩ | ⟨_, hfar, he⟩ | ⟨_, _, he⟩
      · rw [generateRRTLoop_succ_continue m rand goal obstacles n i s _ he] at h
        exact ih (i + 1) s s1 h hs
      · rw [generateRRTLoop_succ_continue m rand goal obstacles n i s _ he] at h
        apply ih (i + 1) _ s1 h
        intro j node hj hnode
        have hpos : 0 < s.tree.length := by
          have := (List.getElem?_eq_some.mp hk).1
          omega
        by_cases hlt : j < s.tree.length
        · rw [List.getElem?_append_left hlt] at hnode
          exact hs j node hj hnode
        · have hlen := (List.getElem?_eq_some.mp hnode).1
          simp only [List.length_append, List.length_singleton] at hlen
          have hj2 : j = s.tree.length := by omega
          subst hj2
          rw [List.getElem?_concat_length] at hnode
          simp only [Option.some.injEq] at hnode
          subst hnode
          exact hfar
      · rw [generateRRTLoop_succ_break m rand goal obstacles n i s _ he] at h
        simp at h

end Exhausted

section C10

variable {F : Type} [LinearOrder F] [Add F] [Sub F] [Mul F]

/-- C10: when a run of `generateRRT` on a fresh RRT ends `Exhausted`, no inserted
node is strictly within `stepSize` of the goal, `getPath()` is empty, and
`tree.size()` is 1 plus the number of iterations whose steered point collided
with no obstacle. -/
theorem C10_exhausted_run (m : DoubleOps F) (rand : Nat → Nat) (stepSize : F)
    (maxIterations : Int) (start goal : Point F) (obstacles : List (Rectangle F)) (rrt : RRT F)
    (h : RRT.generateRRT m rand (RRT.ctor stepSize maxIterations) start goal obstacles
      = some (rrt, Outcome.Exhausted)) :
    (∀ (j : Nat) (node : Node F), 0 < j → rrt.getTree[j]? = some node →
      ¬ distance m node.point goal < stepSize) ∧
    rrt.getPath = [] ∧
    rrt.getTree.length =
      1 + acceptedCount m rand stepSize maxIterations start goal obstacles
        maxIterations.toNat := by
  have hout := generateRRTLoop_outcome m rand goal obstacles _ _ _ rrt _ h
  refine ⟨?_, ?_, ?_⟩
  · have hfar := generateRRTLoop_exhausted_far m rand goal obstacles _ _ _ rrt h (by
      intro j node hj hnode
      have hlen := (List.getElem?_eq_some.mp hnode).1
      simp [RRT.ctor] at hlen
      omega)
    intro j node hj hnode
    have := hfar j node hj hnode
    rw [hout.1] at this
    exact this
  · exact hout.2.2.1 rfl
  · exact generateRRTLoop_exhausted_length m rand stepSize maxIterations start goal obstacles
      _ rrt h

/-- C10, witness: the two-iteration run whose first steered point is rejected
and whose second one is inserted. -/
theorem C10_exhausted_run_witness :
    RRT.generateRRT realOps (randFirst 15 0) (RRT.ctor 20 2) ⟨0, 0⟩ ⟨100, 0⟩
        [⟨10, -5, 10, 10⟩] =
      some ({ stepSize := 20, maxIterations := 2,
              tree := [⟨⟨0, 0⟩, -1⟩, ⟨⟨0, 0⟩, 0⟩], path := [] }, Outcome.Exhausted) ∧
    ((∀ (j : Nat) (node : Node ℝ), 0 < j →
        ([⟨⟨0, 0⟩, -1⟩, ⟨⟨0, 0⟩, 0⟩] : List (Node ℝ))[j]? = some node →
        ¬ distance realOps node.point ⟨100, 0⟩ < 20) ∧
      ([] : List (Point ℝ)) = [] ∧
      ([⟨⟨0, 0⟩, -1⟩, ⟨⟨0, 0⟩, 0⟩] : List (Node ℝ)).length =
        1 + acceptedCount realOps (randFirst 15 0) 20 2 ⟨0, 0⟩ ⟨100, 0⟩
          [⟨10, -5, 10, 10⟩] (2 : Int).toNat) :=
  ⟨run_rejected_example,
    C10_exhausted_run realOps (randFirst 15 0) 20 2 ⟨0, 0⟩ ⟨100, 0⟩ [⟨10, -5, 10, 10⟩] _
      run_rejected_example⟩

end C10

/-! ## Steering in exact arithmetic

The two facts below hold for `realOps` only.  They say nothing about the
rounded results of `std::atan2`, `std::cos`, `std::sin` and `std::sqrt`. -/

section ExactExtend

/-- The exact distance is the modulus of the difference vector. -/
theorem distance_realOps_eq_abs (a b : Point ℝ) :
    distance realOps a b = Complex.abs ⟨b.x - a.x, b.y - a.y⟩ := by
  rw [distance_realOps, Complex.abs_apply, Complex.normSq_mk]
  congr 1
  ring

/-- In exact arithmetic, for `0 ≤ stepSize < distance(from, to)` the steered
point is `from + (stepSize / distance(from, to)) * (to - from)`. -/
theorem extend_realOps_far (s : RRT ℝ) (a b : Point ℝ) (hs : 0 ≤ s.stepSize)
    (h : s.stepSize < distance realOps a b) :
    s.extend realOps a b =
      ⟨a.x + s.stepSize / distance realOps a b * (b.x - a.x),
       a.y + s.stepSize / distance realOps a b * (b.y - a.y)⟩ := by
  have hz : (⟨b.x - a.x, b.y - a.y⟩ : ℂ) ≠ 0 := by
    intro hz0
    rw [distance_realOps_eq_abs, hz0, map_zero] at h
    linarith
  have hcos := Complex.cos_arg hz
  have hsin := Complex.sin_arg (⟨b.x - a.x, b.y - a.y⟩ : ℂ)
  rw [← distance_realOps_eq_abs] at hcos hsin
  have hle : ¬ distance realOps a b ≤ s.stepSize := not_le.mpr h
  simp only [RRT.extend, hle, if_false]
  have hc2 : realOps.cos (realOps.atan2 (b.y - a.y) (b.x - a.x))
      = (b.x - a.x) / distance realOps a b := hcos
  have hs2 : realOps.sin (realOps.atan2 (b.y - a.y) (b.x - a.x))
      = (b.y - a.y) / distance realOps a b := hsin
  rw [hc2, hs2]
  congr 1 <;> ring

/-- In exact arithmetic the steered point is at distance at most `stepSize`
from `from`, and at distance `stepSize` when `to` is farther than that. -/
theorem extend_realOps_distance (s : RRT ℝ) (a b : Point ℝ) (hs : 0 ≤ s.stepSize) :
    distance realOps a (s.extend realOps a b) ≤ s.stepSize ∧
    (s.stepSize < distance realOps a b →
      distance realOps a (s.extend realOps a b) = s.stepSize) := by
  by_cases h : distance realOps a b ≤ s.stepSize
  · have he : s.extend realOps a b = b := by simp [RRT.extend, h]
    rw [he]
    exact ⟨h, fun hlt => absurd h (not_le.mpr hlt)⟩
  · have hlt : s.stepSize < distance realOps a b := not_le.mp h
    have hd : distance realOps a (s.extend realOps a b) = s.stepSize := by
      have hpos : 0 < distance realOps a b := lt_of_le_of_lt hs hlt
      have hsq : distance realOps a b ^ 2 = (a.x - b.x) ^ 2 + (a.y - b.y) ^ 2 := by
        rw [distance_realOps]
        exact Real.sq_sqrt (by positivity)
      rw [extend_realOps_far s a b hs hlt, distance_realOps]
      have hgoal : (a.x - (a.x + s.stepSize / distance realOps a b * (b.x - a.x))) ^ 2 +
          (a.y - (a.y + s.stepSize / distance realOps a b * (b.y - a.y))) ^ 2
          = s.stepSize ^ 2 := by
        have hne : distance realOps a b ≠ 0 := ne_of_gt hpos
        field_simp
        nlinarith [hsq]
      rw [hgoal]
      exact Real.sqrt_sq hs
    exact ⟨le_of_eq hd, fun _ => hd⟩

end ExactExtend

/-! ## Degenerate iteration budgets and the missing validation -/

section C11

variable {F : Type} [LinearOrder F] [Add F] [Sub F] [Mul F]

/-- With an iteration budget of zero or less the loop body never runs: the
result is the root-only tree, the path as constructed, outcome `Exhausted`. -/
theorem generateRRT_no_iterations (m : DoubleOps F) (rand : Nat → Nat) (stepSize : F)
    (maxIterations : Int) (start goal : Point F) (obstacles : List (Rectangle F))
    (h : maxIterations ≤ 0) :
    RRT.generateRRT m rand (RRT.ctor stepSize maxIterations) start goal obstacles =
      some ({ stepSize := stepSize, maxIterations := maxIterations,
              tree := [{ point := start, parentIndex := -1 }], path := [] },
            Outcome.Exhausted) := by
  have h0 : maxIterations.toNat = 0 := by omega
  simp [RRT.generateRRT, RRT.ctor, h0, generateRRTLoop]

/-- C11: with `maxIterations = 0`, for every start, goal, obstacle list, stepSize
and `std::rand()` stream, `generateRRT` on a fresh RRT ends `Exhausted` at once:
the tree is the single node `{start, -1}` and `getPath()` is empty. -/
theorem C11_zero_iterations (m : DoubleOps F) (rand : Nat → Nat) (stepSize : F)
    (start goal : Point F) (obstacles : List (Rectangle F)) :
    ∃ rrt : RRT F,
      RRT.generateRRT m rand (RRT.ctor stepSize 0) start goal obstacles =
        some (rrt, Outcome.Exhausted) ∧
      rrt.getTree = [{ point := start, parentIndex := -1 }] ∧ rrt.getPath = [] :=
  ⟨_, generateRRT_no_iterations m rand stepSize 0 start goal obstacles (le_refl _), rfl, rfl⟩

end C11

/-! ## Collision test, sampling range, path of a `Found` run -/

section C13

variable {F : Type} [LinearOrder F] [Add F]

/-- The rectangle test is the conjunction of the four inclusive comparisons. -/
theorem pointInRectangle_eq_true_iff (p : Point F) (r : Rectangle F) :
    pointInRectangle p r = true ↔
      r.x ≤ p.x ∧ p.x ≤ r.x + r.width ∧ r.y ≤ p.y ∧ p.y ≤ r.y + r.height := by
  simp only [pointInRectangle, Bool.and_eq_true, decide_eq_true_eq, ge_iff_le]
  tauto

/-- C13: `collisionWithObstacles(p, obstacles)` is true exactly when some
rectangle `r` of the list has `r.x <= p.x <= r.x + r.width` and
`r.y <= p.y <= r.y + r.height` (all four edges inclusive), and it is false for
the empty obstacle list. -/
theorem C13_collision_iff_in_some_rectangle (p : Point F) (obstacles : List (Rectangle F)) :
    (collisionWithObstacles p obstacles = true ↔
      ∃ r ∈ obstacles,
        r.x ≤ p.x ∧ p.x ≤ r.x + r.width ∧ r.y ≤ p.y ∧ p.y ≤ r.y + r.height) ∧
    collisionWithObstacles p ([] : List (Rectangle F)) = false := by
  refine ⟨?_, rfl⟩
  constructor
  · intro h
    by_contra hne
    have hfalse : collisionWithObstacles p obstacles = false := by
      rw [collisionWithObstacles_eq_false_iff]
      intro r hr
      by_contra hin
      simp only [Bool.not_eq_false] at hin
      exact hne ⟨r, hr, (pointInRectangle_eq_true_iff p r).mp hin⟩
    rw [hfalse] at h
    cases h
  · rintro ⟨r, hr, hin⟩
    by_contra hne
    simp only [Bool.not_eq_true] at hne
    have := (collisionWithObstacles_eq_false_iff p obstacles).mp hne r hr
    rw [(pointInRectangle_eq_true_iff p r).mpr hin] at this
    cases this

end C13

section C19

variable {F : Type} [LinearOrder F] [Add F] [Sub F] [Mul F]

/-- C19: whenever `generateRRT` on a fresh RRT ends `Found`, `getPath()` has
exactly one element, the point of the last tree node, which is strictly within
`stepSize` of the goal (hence passes the stop test `<=` of `constructPath` at
its first step). -/
theorem C19_found_path_is_last_node (m : DoubleOps F) (rand : Nat → Nat) (stepSize : F)
    (maxIterations : Int) (start goal : Point F) (obstacles : List (Rectangle F))
    (rrt : RRT F)
    (h : RRT.generateRRT m rand (RRT.ctor stepSize maxIterations) start goal obstacles
      = some (rrt, Outcome.Found)) :
    ∃ last : Node F, rrt.getTree.getLast? = some last ∧ rrt.getPath = [last.point] ∧
      rrt.getPath.length = 1 ∧
      distance m last.point goal < stepSize ∧ distance m last.point goal ≤ stepSize := by
  obtain ⟨_, _, _, hf⟩ := generateRRTLoop_outcome m rand goal obstacles _ _ _ rrt _ h
  obtain ⟨last, hl, hd, hp⟩ := hf rfl
  have hp2 : rrt.path = [last.point] := by
    rw [hp]; simp [RRT.ctor]
  refine ⟨last, hl, hp2, ?_, hd, le_of_lt hd⟩
  simp [RRT.getPath, hp2]

/-- C19, witness: the run that inserts the sample (15,0) next to the goal (30,0). -/
theorem C19_found_path_is_last_node_witness :
    RRT.generateRRT realOps (randFirst 15 0) (RRT.ctor 20 1) ⟨0, 0⟩ ⟨30, 0⟩ [] =
      some ({ stepSize := 20, maxIterations := 1,
              tree := [⟨⟨0, 0⟩, -1⟩, ⟨⟨15, 0⟩, 0⟩], path := [⟨15, 0⟩] }, Outcome.Found) ∧
    ∃ last : Node ℝ,
      ([⟨⟨0, 0⟩, -1⟩, ⟨⟨15, 0⟩, 0⟩] : List (Node ℝ)).getLast? = some last ∧
      ([⟨15, 0⟩] : List (Point ℝ)) = [last.point] ∧
      ([⟨15, 0⟩] : List (Point ℝ)).length = 1 ∧
      distance realOps last.point ⟨30, 0⟩ < 20 ∧ distance realOps last.point ⟨30, 0⟩ ≤ 20 :=
  ⟨run_found_example,
    C19_found_path_is_last_node realOps (randFirst 15 0) 20 1 ⟨0, 0⟩ ⟨30, 0⟩ [] _
      run_found_example⟩

end C19

section C17

variable {F : Type}

/-- The value of `randomInt` for a non-negative `std::rand()` value and
`min <= max`: the remainder lies in `[0, max - min]`, so every intermediate
value is representable when `max - min + 1` is, and the result is in
`[min, max]`. -/
theorem randomInt_range (r min max : Int) (hr : 0 ≤ r) (hmm : min ≤ max) :
    randomInt r min max = min + r % (max - min + 1) ∧
    0 ≤ r % (max - min + 1) ∧ r % (max - min + 1) ≤ max - min ∧
    min ≤ randomInt r min max ∧ randomInt r min max ≤ max := by
  have hpos : 0 < max - min + 1 := by omega
  have htm : Int.tmod r (max - min + 1) = r % (max - min + 1) :=
    Int.tmod_eq_emod hr (le_of_lt hpos)
  have h0 : 0 ≤ r % (max - min + 1) := Int.emod_nonneg r (ne_of_gt hpos)
  have h1 : r % (max - min + 1) < max - min + 1 := Int.emod_lt_of_pos r hpos
  have he : randomInt r min max = min + r % (max - min + 1) := by
    simp only [randomInt, htm]
  rw [he]
  exact ⟨rfl, h0, by omega, by omega, by omega⟩

/-- C17: for `min <= max` (with `max - min + 1` at most `INT_MAX`) and a
non-negative `std::rand()` value `r`, `randomInt(min, max)` is
`min + r % (max - min + 1)` and lies in `[min, max]`; hence every point sampled
by `generateRRT` is the conversion of integers `x` in `[0, 800]` and `y` in
`[0, 600]`, and in exact arithmetic its coordinates lie in those intervals. -/
theorem C17_randomInt_in_range (m : DoubleOps F) (rand : Nat → Nat) (i : Nat)
    (r min max : Int) (hr : 0 ≤ r) (hmm : min ≤ max) (hrep : max - min + 1 ≤ 2147483647) :
    (randomInt r min max = min + r % (max - min + 1) ∧
      0 < max - min + 1 ∧ r % (max - min + 1) < 2147483647 ∧
      min ≤ randomInt r min max ∧ randomInt r min max ≤ max) ∧
    (∃ kx ky : Int, 0 ≤ kx ∧ kx ≤ 800 ∧ 0 ≤ ky ∧ ky ≤ 600 ∧
      randomPoint m rand i = { x := m.ofInt kx, y := m.ofInt ky }) ∧
    (0 ≤ (randomPoint realOps rand i).x ∧ (randomPoint realOps rand i).x ≤ 800 ∧
      0 ≤ (randomPoint realOps rand i).y ∧ (randomPoint realOps rand i).y ≤ 600) := by
  obtain ⟨he, h0, h1, hlo, hhi⟩ := randomInt_range r min max hr hmm
  obtain ⟨_, _, _, hx0, hx1⟩ := randomInt_range (rand (2 * i)) 0 800 (by omega) (by omega)
  obtain ⟨_, _, _, hy0, hy1⟩ := randomInt_range (rand (2 * i + 1)) 0 600 (by omega) (by omega)
  refine ⟨⟨he, by omega, by omega, hlo, hhi⟩, ⟨_, _, hx0, hx1, hy0, hy1, rfl⟩, ?_⟩
  simp only [randomPoint, realOps]
  exact ⟨by exact_mod_cast hx0, by exact_mod_cast hx1, by exact_mod_cast hy0,
    by exact_mod_cast hy1⟩

/-- C17, witness: `randomInt(10, 50)` (the obstacle sizes of `main`) for the
`std::rand()` value 1234567. -/
theorem C17_randomInt_in_range_witness :
    (0 : Int) ≤ 1234567 ∧ (10 : Int) ≤ 50 ∧ (50 : Int) - 10 + 1 ≤ 2147483647 ∧
    ((randomInt 1234567 10 50 = 10 + 1234567 % (50 - 10 + 1) ∧
      (0 : Int) < 50 - 10 + 1 ∧ (1234567 : Int) % (50 - 10 + 1) < 2147483647 ∧
      10 ≤ randomInt 1234567 10 50 ∧ randomInt 1234567 10 50 ≤ 50) ∧
    (∃ kx ky : Int, 0 ≤ kx ∧ kx ≤ 800 ∧ 0 ≤ ky ∧ ky ≤ 600 ∧
      randomPoint realOps (randFirst 15 0) 0 = { x := realOps.ofInt kx, y := realOps.ofInt ky }) ∧
    (0 ≤ (randomPoint realOps (randFirst 15 0) 0).x ∧
      (randomPoint realOps (randFirst 15 0) 0).x ≤ 800 ∧
      0 ≤ (randomPoint realOps (randFirst 15 0) 0).y ∧
      (randomPoint realOps (randFirst 15 0) 0).y ≤ 600)) :=
  ⟨by decide, by decide, by decide,
    C17_randomInt_in_range realOps (randFirst 15 0) 0 1234567 10 50 (by decide) (by decide)
      (by decide)⟩

end C17

section C16

variable {F : Type} [LinearOrder F] [Add F] [Sub F] [Mul F]

/-- The loop never removes a node. -/
theorem generateRRTLoop_length_le (m : DoubleOps F) (rand : Nat → Nat) (goal : Point F)
    (obstacles : List (Rectangle F)) (n i : Nat) (s s1 : RRT F) (o : Outcome)
    (h : generateRRTLoop m rand goal obstacles n i s = some (s1, o)) :
    s.tree.length ≤ s1.tree.length := by
  refine generateRRTLoop_preserves m rand goal obstacles
    (fun t => s.tree.length ≤ t.tree.length) ?_ n i s s1 o (le_refl _) h
  intro t q t1 b ht hit
  rcases iteration_tree m t goal obstacles q t1 b hit with he | ⟨_, _, _, _, _, he⟩
  · rw [he]; exact ht
  · rw [he, List.length_append]; omega

/-- With no obstacles, a completed run of at least one iteration has inserted a
node besides the root, whatever the value of `stepSize`. -/
theorem generateRRT_inserts_without_obstacles (m : DoubleOps F) (rand : Nat → Nat)
    (stepSize : F) (maxIterations : Int) (start goal : Point F) (rrt : RRT F) (o : Outcome)
    (hpos : 1 ≤ maxIterations)
    (h : RRT.generateRRT m rand (RRT.ctor stepSize maxIterations) start goal []
      = some (rrt, o)) :
    2 ≤ rrt.tree.length := by
  obtain ⟨n, hn⟩ : ∃ n : Nat, maxIterations.toNat = n + 1 :=
    ⟨maxIterations.toNat - 1, by omega⟩
  have hrun : RRT.generateRRT m rand (RRT.ctor stepSize maxIterations) start goal [] =
      generateRRTLoop m rand goal [] (n + 1) 0
        { stepSize := stepSize, maxIterations := maxIterations,
          tree := [{ point := start, parentIndex := -1 }], path := [] } := by
    simp [RRT.generateRRT, RRT.ctor, hn]
  rw [hrun] at h
  rcases iteration_cases m
      { stepSize := stepSize, maxIterations := maxIterations,
        tree := [{ point := start, parentIndex := -1 }], path := [] }
      goal [] (randomPoint m rand 0) with ⟨_, hnone⟩ | ⟨k, nd, _, _, hc⟩
  · rw [generateRRTLoop_succ_none m rand goal [] n 0 _ hnone] at h; cases h
  · rcases hc with ⟨hcol, _⟩ | ⟨_, _, he⟩ | ⟨_, _, he⟩
    · simp [collisionWithObstacles] at hcol
    · rw [generateRRTLoop_succ_continue m rand goal [] n 0 _ _ he] at h
      have := generateRRTLoop_length_le m rand goal [] n 1 _ rrt o h
      simpa using this
    · rw [generateRRTLoop_succ_break m rand goal [] n 0 _ _ he] at h
      simp only [Option.some.injEq, Prod.mk.injEq] at h
      rw [← h.1]
      simp

/-- The run with `stepSize = 0`, one iteration, start (0,0), goal (30,0), no
obstacles and the sample (0,0): the sample is at distance 0 <= stepSize from the
root, is inserted as a node, and the run ends `Exhausted`. -/
theorem run_zero_stepSize_example :
    RRT.generateRRT realOps (randFirst 0 0) (RRT.ctor 0 1) ⟨0, 0⟩ ⟨30, 0⟩ [] =
      some ({ stepSize := 0, maxIterations := 1,
              tree := [⟨⟨0, 0⟩, -1⟩, ⟨⟨0, 0⟩, 0⟩], path := [] }, Outcome.Exhausted) := by
  have hq : randomPoint realOps (randFirst 0 0) 0 = ⟨0, 0⟩ := by
    simpa using randomPoint_randFirst 0 0 (by omega) (by omega)
  have hd1 : distance realOps ⟨0, 0⟩ ⟨0, 0⟩ = 0 := by
    rw [distance_realOps_horizontal]; norm_num
  have hd2 : distance realOps ⟨0, 0⟩ ⟨30, 0⟩ = 30 := by
    rw [distance_realOps_horizontal]; norm_num
  have hmax := realOps_dblMax_gt
  have hn : RRT.getNearestNodeIndex realOps
      { stepSize := 0, maxIterations := 1, tree := [⟨⟨0, 0⟩, -1⟩], path := [] } ⟨0, 0⟩ = 0 :=
    getNearestNodeIndex_singleton realOps _ ⟨⟨0, 0⟩, -1⟩ _ rfl (by rw [hd1]; linarith)
  simp only [RRT.generateRRT, RRT.ctor, List.nil_append, Int.toNat_one, generateRRTLoop, hq,
    RRT.iteration, hn]
  norm_num [RRT.extend, hd1, hd2, collisionWithObstacles]

/-- C16 (counterexample): the configuration `stepSize = 0`, `maxIterations = 1`
is not rejected: `generateRRT` returns a normal `Exhausted` result and has
inserted the node `{(0,0), 0}` for the sample it drew. -/
theorem C16_zero_stepSize_not_rejected :
    ∃ rrt : RRT ℝ,
      RRT.generateRRT realOps (randFirst 0 0) (RRT.ctor 0 1) ⟨0, 0⟩ ⟨30, 0⟩ [] =
        some (rrt, Outcome.Exhausted) ∧
      rrt.getTree = [⟨⟨0, 0⟩, -1⟩, ⟨⟨0, 0⟩, 0⟩] ∧ rrt.getTree.length = 2 :=
  ⟨_, run_zero_stepSize_example, rfl, rfl⟩

/-- C16 (amended): the constructor and `generateRRT` validate nothing.  With
`maxIterations <= 0` (any `stepSize`) the root is inserted, the loop body never
runs and the result is the ordinary outcome `Exhausted` with the root-only tree
and an empty path; with `maxIterations >= 1` and any `stepSize`, also one that
is zero or negative, planning proceeds: with no obstacles every completed run
has inserted at least one node besides the root. -/
theorem C16_no_validation (m : DoubleOps F) (rand : Nat → Nat) (stepSize : F)
    (maxIterations : Int) (start goal : Point F) :
    (maxIterations ≤ 0 → ∀ obstacles : List (Rectangle F),
      RRT.generateRRT m rand (RRT.ctor stepSize maxIterations) start goal obstacles =
        some ({ stepSize := stepSize, maxIterations := maxIterations,
                tree := [{ point := start, parentIndex := -1 }], path := [] },
              Outcome.Exhausted)) ∧
    (1 ≤ maxIterations → ∀ (rrt : RRT F) (o : Outcome),
      RRT.generateRRT m rand (RRT.ctor stepSize maxIterations) start goal [] = some (rrt, o) →
      2 ≤ rrt.getTree.length) :=
  ⟨fun h obstacles =>
      generateRRT_no_iterations m rand stepSize maxIterations start goal obstacles h,
    fun hpos rrt o h =>
      generateRRT_inserts_without_obstacles m rand stepSize maxIterations start goal rrt o hpos h⟩

/-- C16 (amended), witness: `maxIterations = -3` for the first part, and the
run with `stepSize = 0`, `maxIterations = 1` for the second. -/
theorem C16_no_validation_witness :
    ((-3 : Int) ≤ 0 ∧
      RRT.generateRRT realOps (randFirst 0 0) (RRT.ctor 0 (-3)) ⟨0, 0⟩ ⟨30, 0⟩
          [⟨10, -5, 10, 10⟩] =
        some ({ stepSize := 0, maxIterations := -3,
                tree := [{ point := ⟨0, 0⟩, parentIndex := -1 }], path := [] },
              Outcome.Exhausted)) ∧
    ((1 : Int) ≤ 1 ∧
      RRT.generateRRT realOps (randFirst 0 0) (RRT.ctor 0 1) ⟨0, 0⟩ ⟨30, 0⟩ [] =
        some ({ stepSize := 0, maxIterations := 1,
                tree := [⟨⟨0, 0⟩, -1⟩, ⟨⟨0, 0⟩, 0⟩], path := [] }, Outcome.Exhausted) ∧
      2 ≤ ([⟨⟨0, 0⟩, -1⟩, ⟨⟨0, 0⟩, 0⟩] : List (Node ℝ)).length) :=
  ⟨⟨by decide,
      (C16_no_validation realOps (randFirst 0 0) 0 (-3) ⟨0, 0⟩ ⟨30, 0⟩).1 (by decide) _⟩,
    ⟨by decide, run_zero_stepSize_example,
      (C16_no_validation realOps (randFirst 0 0) 0 1 ⟨0, 0⟩ ⟨30, 0⟩).2 (by decide) _ _
        run_zero_stepSize_example⟩⟩

end C16

section C18

variable {F : Type}

/-- The loop bound for a non-empty vector of fewer than 2^64 elements. -/
theorem pathLoopBound_pos (size : Nat) (h0 : 0 < size) (hlt : size < 2 ^ 64) :
    pathLoopBound size = size - 1 := by
  simp only [pathLoopBound]
  omega

/-- With the bound `size - 1`, the loop started at a counter inside the path
draws the remaining `size - 1 - i` segments and reads inside the vector only. -/
theorem drawPathLoop_inside (path : List (Point F)) :
    ∀ (k i : Nat) (drawn : List (Point F × Point F)), i + 1 + k = path.length →
      ∃ segs : List (Point F × Point F),
        drawPathLoop path (path.length - 1) i drawn = some segs ∧
        segs.length = drawn.length + k := by
  intro k
  induction k with
  | zero =>
    intro i drawn hi
    refine ⟨drawn, ?_, rfl⟩
    rw [drawPathLoop, if_neg (by omega)]
  | succ k ih =>
    intro i drawn hi
    have h1 : i + 1 < path.length := by omega
    obtain ⟨segs, hs, hl⟩ := ih (i + 1) (drawn ++ [(path[i], path[i + 1])]) (by omega)
    refine ⟨segs, ?_, ?_⟩
    · rw [drawPathLoop, if_pos (by omega), dif_pos h1]
      exact hs
    · rw [hl, List.length_append, List.length_singleton]
      omega

/-- On a non-empty path the loop draws exactly `size - 1` segments. -/
theorem drawPath_nonempty (path : List (Point F)) (h0 : 0 < path.length)
    (hlt : path.length < 2 ^ 64) :
    ∃ segs : List (Point F × Point F),
      drawPath path = some segs ∧ segs.length = path.length - 1 := by
  obtain ⟨segs, hs, hl⟩ := drawPathLoop_inside path (path.length - 1) 0 [] (by omega)
  refine ⟨segs, ?_, by simpa using hl⟩
  rw [drawPath, pathLoopBound_pos _ h0 hlt]
  exact hs

/-- C18 (code evaluated at the failing input): after the `Exhausted` run with
`maxIterations = 0`, `getPath()` is empty, `size() - 1` wraps to 2^64 - 1, the
loop condition `0 < size() - 1` holds and the first loop body reads
`getPath()[0]` outside the vector. -/
theorem C18_empty_path_read_out_of_bounds :
    ∃ rrt : RRT ℝ,
      RRT.generateRRT realOps (randFirst 0 0) (RRT.ctor 20 0) ⟨0, 0⟩ ⟨30, 0⟩ [] =
        some (rrt, Outcome.Exhausted) ∧
      rrt.getPath = [] ∧
      pathLoopBound rrt.getPath.length = 2 ^ 64 - 1 ∧
      drawPath rrt.getPath = none := by
  refine ⟨_, generateRRT_no_iterations realOps (randFirst 0 0) 20 0 ⟨0, 0⟩ ⟨30, 0⟩ []
    (le_refl _), rfl, ?_, ?_⟩
  · simp [RRT.getPath, pathLoopBound]
  · have hb : pathLoopBound ([] : List (Point ℝ)).length = 2 ^ 64 - 1 := by
      simp [pathLoopBound]
    simp only [RRT.getPath, drawPath]
    rw [hb, drawPathLoop, if_pos (by norm_num), dif_neg (by simp)]

end C18

/-! ## Geometry in exact arithmetic

The facts of this part hold for `realOps` only: they use the field laws of the
real numbers and the exact square root.  The rounded `double` operations of the
program do not satisfy all of them. -/

section ExactGeometry

/-- In exact arithmetic the distance is symmetric. -/
theorem distance_realOps_comm (a b : Point ℝ) :
    distance realOps a b = distance realOps b a := by
  rw [distance_realOps, distance_realOps]
  congr 1
  ring

/-- In exact arithmetic the distance of a point to itself is zero. -/
theorem distance_realOps_self (a : Point ℝ) : distance realOps a a = 0 := by
  rw [distance_realOps]
  simp

/-- In exact arithmetic the distance is never negative. -/
theorem distance_realOps_nonneg (a b : Point ℝ) : 0 ≤ distance realOps a b := by
  rw [distance_realOps]
  exact Real.sqrt_nonneg _

/-- In exact arithmetic two points at distance zero are equal. -/
theorem distance_realOps_eq_zero_iff (a b : Point ℝ) :
    distance realOps a b = 0 ↔ a = b := by
  constructor
  · intro h
    rw [distance_realOps, Real.sqrt_eq_zero (by positivity)] at h
    have hx : (a.x - b.x) ^ 2 = 0 := by nlinarith [sq_nonneg (a.x - b.x), sq_nonneg (a.y - b.y)]
    have hy : (a.y - b.y) ^ 2 = 0 := by nlinarith [sq_nonneg (a.x - b.x), sq_nonneg (a.y - b.y)]
    have hx2 : a.x = b.x := by
      have := pow_eq_zero_iff (two_ne_zero) |>.mp hx
      linarith
    have hy2 : a.y = b.y := by
      have := pow_eq_zero_iff (two_ne_zero) |>.mp hy
      linarith
    cases a; cases b
    simp only at hx2 hy2
    rw [hx2, hy2]
  · intro h
    rw [h, distance_realOps_self]

/-- In exact arithmetic the distance satisfies the triangle inequality. -/
theorem distance_realOps_triangle (a b c : Point ℝ) :
    distance realOps a c ≤ distance realOps a b + distance realOps b c := by
  rw [distance_realOps_eq_abs a c, distance_realOps_eq_abs a b, distance_realOps_eq_abs b c]
  have hsum : (⟨c.x - a.x, c.y - a.y⟩ : ℂ) =
      (⟨b.x - a.x, b.y - a.y⟩ : ℂ) + (⟨c.x - b.x, c.y - b.y⟩ : ℂ) := by
    apply Complex.ext <;> simp
  rw [hsum]
  exact Complex.abs.add_le _ _

/-- In exact arithmetic each coordinate difference is at most the distance. -/
theorem abs_sub_le_distance_realOps (a b : Point ℝ) :
    |a.x - b.x| ≤ distance realOps a b ∧ |a.y - b.y| ≤ distance realOps a b := by
  rw [distance_realOps]
  constructor
  · apply Real.abs_le_sqrt
    nlinarith [sq_nonneg (a.y - b.y)]
  · apply Real.abs_le_sqrt
    nlinarith [sq_nonneg (a.x - b.x)]

/-- In exact arithmetic the four corners of a rectangle with non-negative width
and height pass the rectangle test. -/
theorem pointInRectangle_real_corners (r : Rectangle ℝ) (hw : 0 ≤ r.width)
    (hh : 0 ≤ r.height) :
    pointInRectangle ⟨r.x, r.y⟩ r = true ∧
    pointInRectangle ⟨r.x + r.width, r.y⟩ r = true ∧
    pointInRectangle ⟨r.x, r.y + r.height⟩ r = true ∧
    pointInRectangle ⟨r.x + r.width, r.y + r.height⟩ r = true := by
  simp only [pointInRectangle_eq_true_iff]
  refine ⟨⟨?_, ?_, ?_, ?_⟩, ⟨?_, ?_, ?_, ?_⟩, ⟨?_, ?_, ?_, ?_⟩, ⟨?_, ?_, ?_, ?_⟩⟩ <;> linarith

/-- In exact arithmetic a point whose coordinate is beyond one edge by `eps > 0`
fails the rectangle test, whatever its other coordinate. -/
theorem pointInRectangle_real_outside (r : Rectangle ℝ) (eps t : ℝ) (heps : 0 < eps) :
    pointInRectangle ⟨r.x - eps, t⟩ r = false ∧
    pointInRectangle ⟨r.x + r.width + eps, t⟩ r = false ∧
    pointInRectangle ⟨t, r.y - eps⟩ r = false ∧
    pointInRectangle ⟨t, r.y + r.height + eps⟩ r = false := by
  refine ⟨?_, ?_, ?_, ?_⟩ <;>
  · rw [← Bool.not_eq_true, pointInRectangle_eq_true_iff]
    intro h
    obtain ⟨h1, h2, h3, h4⟩ := h
    simp only at h1 h2 h3 h4
    linarith

end ExactGeometry

section CoveredGoal

variable {F : Type} [LinearOrder F] [Add F] [Sub F] [Mul F]

/-- When every point strictly within `stepSize` of the goal collides with an
obstacle, no loop body breaks: a completed run of the loop ends `Exhausted`. -/
theorem generateRRTLoop_exhausted_of_cover (m : DoubleOps F) (rand : Nat → Nat) (goal : Point F)
    (obstacles : List (Rectangle F)) :
    ∀ (n i : Nat) (s s1 : RRT F) (o : Outcome),
      (∀ p : Point F, distance m p goal < s.stepSize →
        collisionWithObstacles p obstacles = true) →
      generateRRTLoop m rand goal obstacles n i s = some (s1, o) → o = Outcome.Exhausted := by
  intro n
  induction n with
  | zero =>
    intro i s s1 o _ h
    simp only [generateRRTLoop, Option.some.injEq, Prod.mk.injEq] at h
    exact h.2.symm
  | succ n ih =>
    intro i s s1 o hcover h
    rcases iteration_cases m s goal obstacles (randomPoint m rand i) with
      ⟨_, hn⟩ | ⟨k, nd, _, _, hc⟩
    · rw [generateRRTLoop_succ_none m rand goal obstacles n i s hn] at h; cases h
    · rcases hc with ⟨_, he⟩ | ⟨_, _, he⟩ | ⟨hcol, hg, _⟩
      · rw [generateRRTLoop_succ_continue m rand goal obstacles n i s _ he] at h
        exact ih (i + 1) s s1 o hcover h
      · rw [generateRRTLoop_succ_continue m rand goal obstacles n i s _ he] at h
        refine ih (i + 1) _ s1 o ?_ h
        exact hcover
      · rw [hcover _ hg] at hcol; cases hcol

end CoveredGoal

section ExactCoveredGoal

/-- In exact arithmetic a point strictly within `stepSize` of the goal lies in
every rectangle that covers the goal with margin at least `stepSize`. -/
theorem pointInRectangle_real_of_near_goal (p goal : Point ℝ) (stepSize : ℝ) (r : Rectangle ℝ)
    (hx1 : r.x ≤ goal.x - stepSize) (hx2 : goal.x + stepSize ≤ r.x + r.width)
    (hy1 : r.y ≤ goal.y - stepSize) (hy2 : goal.y + stepSize ≤ r.y + r.height)
    (hd : distance realOps p goal < stepSize) :
    pointInRectangle p r = true := by
  obtain ⟨hax, hay⟩ := abs_sub_le_distance_realOps p goal
  have hx := abs_le.mp (le_trans hax (le_of_lt hd))
  have hy := abs_le.mp (le_trans hay (le_of_lt hd))
  rw [pointInRectangle_eq_true_iff]
  refine ⟨?_, ?_, ?_, ?_⟩ <;> linarith [hx.1, hx.2, hy.1, hy.2]

/-- In exact arithmetic, when an obstacle covers the goal with margin at least
`stepSize` on all sides, every completed run of `generateRRT` on a fresh RRT ends
`Exhausted` with an empty path. -/
theorem generateRRT_real_covered_goal (rand : Nat → Nat) (stepSize : ℝ) (maxIterations : Int)
    (start goal : Point ℝ) (obstacles : List (Rectangle ℝ)) (r : Rectangle ℝ)
    (hr : r ∈ obstacles)
    (hx1 : r.x ≤ goal.x - stepSize) (hx2 : goal.x + stepSize ≤ r.x + r.width)
    (hy1 : r.y ≤ goal.y - stepSize) (hy2 : goal.y + stepSize ≤ r.y + r.height)
    (rrt : RRT ℝ) (o : Outcome)
    (h : RRT.generateRRT realOps rand (RRT.ctor stepSize maxIterations) start goal obstacles
      = some (rrt, o)) :
    o = Outcome.Exhausted ∧ rrt.getPath = [] := by
  have ho : o = Outcome.Exhausted := by
    refine generateRRTLoop_exhausted_of_cover realOps rand goal obstacles _ _ _ rrt o ?_ h
    intro p hd
    by_contra hne
    simp only [Bool.not_eq_true] at hne
    have := (collisionWithObstacles_eq_false_iff p obstacles).mp hne r hr
    rw [pointInRectangle_real_of_near_goal p goal stepSize r hx1 hx2 hy1 hy2 hd] at this
    cases this
  subst ho
  exact ⟨rfl, (generateRRTLoop_outcome realOps rand goal obstacles _ _ _ rrt _ h).2.2.1 rfl⟩

end ExactCoveredGoal

/-! ## Parents as nearest earlier nodes -/

section NearestParent

variable {F : Type} [LinearOrder F] [Add F] [Sub F] [Mul F]

/-- If steering from the nearest node `P` toward the sample `S` keeps `P` at
least as close to the steered point as any node `J` that was not closer to `S`
(a law of the arithmetic), then after a completed run every inserted node has a
parent that is at least as close to it as every earlier node. -/
theorem generateRRT_parent_nearest_of_steer (m : DoubleOps F) (rand : Nat → Nat) (stepSize : F)
    (maxIterations : Int) (start goal : Point F) (obstacles : List (Rectangle F))
    (hsteer : ∀ (t : RRT F) (P J S : Point F), t.stepSize = stepSize →
      distance m P S ≤ distance m J S →
      distance m P (t.extend m P S) ≤ distance m J (t.extend m P S))
    (rrt : RRT F) (o : Outcome)
    (h : RRT.generateRRT m rand (RRT.ctor stepSize maxIterations) start goal obstacles
      = some (rrt, o)) :
    ∀ (i : Nat) (node : Node F), 0 < i → rrt.tree[i]? = some node →
      (0 ≤ node.parentIndex ∧ node.parentIndex < (i : Int)) ∧
      ∃ parent : Node F, rrt.tree[node.parentIndex.toNat]? = some parent ∧
        ∀ (j : Nat) (nj : Node F), j < i → rrt.tree[j]? = some nj →
          distance m parent.point node.point ≤ distance m nj.point node.point := by
  have hP := generateRRTLoop_preserves m rand goal obstacles
    (fun s => s.stepSize = stepSize ∧
      ∀ (i : Nat) (node : Node F), 0 < i → s.tree[i]? = some node →
        (0 ≤ node.parentIndex ∧ node.parentIndex < (i : Int)) ∧
        ∃ parent : Node F, s.tree[node.parentIndex.toNat]? = some parent ∧
          ∀ (j : Nat) (nj : Node F), j < i → s.tree[j]? = some nj →
            distance m parent.point node.point ≤ distance m nj.point node.point)
    ?_ _ 0 _ rrt o ?_ h
  · exact hP.2
  · intro s q s1 b ⟨hs, hinv⟩ hit
    have hs1 : s1.stepSize = stepSize := by
      rw [(iteration_outcome m s goal obstacles q s1 b hit).1]; exact hs
    refine ⟨hs1, ?_⟩
    rcases iteration_tree m s goal obstacles q s1 b hit with ht | ⟨k, nd, hk, hidx, _, ht⟩
    · rw [ht]; exact hinv
    · have hklt : k < s.tree.length := (List.getElem?_eq_some.mp hk).1
      have hmin : ∀ (j : Nat) (n : Node F), s.tree[j]? = some n →
          distance m nd.point q ≤ distance m n.point q := by
        rcases getNearestNodeIndex_spec m s q with ⟨hneg, _⟩ | ⟨k2, nd2, hk2, hres2, _, hmin2, _⟩
        · rw [hidx] at hneg; omega
        · have hkk : k2 = k := by rw [hidx] at hres2; omega
          subst hkk
          rw [hk] at hk2
          simp only [Option.some.injEq] at hk2
          subst hk2
          exact hmin2
      rw [ht]
      intro i node hi hnode
      by_cases hlt : i < s.tree.length
      · rw [List.getElem?_append_left hlt] at hnode
        obtain ⟨hb, parent, hpar, hnear⟩ := hinv i node hi hnode
        have hplt : node.parentIndex.toNat < s.tree.length := by omega
        refine ⟨hb, parent, ?_, ?_⟩
        · rw [List.getElem?_append_left hplt]; exact hpar
        · intro j nj hj hnj
          rw [List.getElem?_append_left (by omega)] at hnj
          exact hnear j nj hj hnj
      · have hlen := (List.getElem?_eq_some.mp hnode).1
        simp only [List.length_append, List.length_singleton] at hlen
        have hi2 : i = s.tree.length := by omega
        subst hi2
        rw [List.getElem?_concat_length] at hnode
        simp only [Option.some.injEq] at hnode
        subst hnode
        refine ⟨⟨by simp, by simp; omega⟩, nd, ?_, ?_⟩
        · simp only [Int.toNat_ofNat]
          rw [List.getElem?_append_left hklt]; exact hk
        · intro j nj hj hnj
          rw [List.getElem?_append_left hj] at hnj
          exact hsteer s nd.point nj.point q hs (hmin j nj hnj)
  · refine ⟨rfl, ?_⟩
    intro i node hi hnode
    have hlen := (List.getElem?_eq_some.mp hnode).1
    simp [RRT.ctor] at hlen
    omega

end NearestParent

section ExactNearestParent

/-- In exact arithmetic, for `0 <= stepSize < distance(from, to)` the steered
point is at distance `distance(from, to) - stepSize` from `to`. -/
theorem extend_realOps_distance_to (s : RRT ℝ) (a b : Point ℝ) (hs : 0 ≤ s.stepSize)
    (h : s.stepSize < distance realOps a b) :
    distance realOps (s.extend realOps a b) b = distance realOps a b - s.stepSize := by
  have hpos : 0 < distance realOps a b := lt_of_le_of_lt hs h
  have hne : distance realOps a b ≠ 0 := ne_of_gt hpos
  have hsq : distance realOps a b ^ 2 = (a.x - b.x) ^ 2 + (a.y - b.y) ^ 2 := by
    rw [distance_realOps]
    exact Real.sq_sqrt (by positivity)
  rw [extend_realOps_far s a b hs h, distance_realOps]
  have hx : a.x + s.stepSize / distance realOps a b * (b.x - a.x) - b.x
      = (1 - s.stepSize / distance realOps a b) * (a.x - b.x) := by ring
  have hy : a.y + s.stepSize / distance realOps a b * (b.y - a.y) - b.y
      = (1 - s.stepSize / distance realOps a b) * (a.y - b.y) := by ring
  have hfac : (1 - s.stepSize / distance realOps a b) * distance realOps a b
      = distance realOps a b - s.stepSize := by
    field_simp
  have hgoal : (a.x + s.stepSize / distance realOps a b * (b.x - a.x) - b.x) ^ 2 +
      (a.y + s.stepSize / distance realOps a b * (b.y - a.y) - b.y) ^ 2
      = (distance realOps a b - s.stepSize) ^ 2 := by
    rw [hx, hy, ← hfac, mul_pow, mul_pow, mul_pow, hsq]
    ring
  rw [hgoal]
  exact Real.sqrt_sq (by linarith)

/-- In exact arithmetic, steering from `P` toward `S` keeps `P` at least as close
to the steered point as any `J` that is not closer to `S` than `P` is. -/
theorem extend_realOps_keeps_nearest (t : RRT ℝ) (P J S : Point ℝ) (hs : 0 ≤ t.stepSize)
    (h : distance realOps P S ≤ distance realOps J S) :
    distance realOps P (t.extend realOps P S) ≤ distance realOps J (t.extend realOps P S) := by
  by_cases hnear : distance realOps P S ≤ t.stepSize
  · have he : t.extend realOps P S = S := by simp [RRT.extend, hnear]
    rw [he]; exact h
  · have hfar : t.stepSize < distance realOps P S := not_le.mp hnear
    have h1 := (extend_realOps_distance t P S hs).2 hfar
    have h2 := extend_realOps_distance_to t P S hs hfar
    have h3 := distance_realOps_triangle J (t.extend realOps P S) S
    rw [h1]
    linarith

/-- In exact arithmetic, for `stepSize >= 0`, after a completed run of
`generateRRT` on a fresh RRT the parent of every inserted node is at least as
close to the node as every earlier node. -/
theorem generateRRT_real_parent_nearest (rand : Nat → Nat) (stepSize : ℝ) (maxIterations : Int)
    (start goal : Point ℝ) (obstacles : List (Rectangle ℝ)) (hs : 0 ≤ stepSize)
    (rrt : RRT ℝ) (o : Outcome)
    (h : RRT.generateRRT realOps rand (RRT.ctor stepSize maxIterations) start goal obstacles
      = some (rrt, o)) :
    ∀ (i : Nat) (node : Node ℝ), 0 < i → rrt.tree[i]? = some node →
      ∃ parent : Node ℝ, rrt.tree[node.parentIndex.toNat]? = some parent ∧
        ∀ (j : Nat) (nj : Node ℝ), j < i → rrt.tree[j]? = some nj →
          distance realOps parent.point node.point ≤ distance realOps nj.point node.point := by
  intro i node hi hnode
  exact (generateRRT_parent_nearest_of_steer realOps rand stepSize maxIterations start goal
    obstacles (fun t P J S ht hd => extend_realOps_keeps_nearest t P J S (by rw [ht]; exact hs) hd)
    rrt o h i node hi hnode).2

/-- In exact arithmetic, for `stepSize >= 0`, after a completed run of
`generateRRT` on a fresh RRT every tree edge has length at most `stepSize`. -/
theorem generateRRT_real_edge_length (rand : Nat → Nat) (stepSize : ℝ) (maxIterations : Int)
    (start goal : Point ℝ) (obstacles : List (Rectangle ℝ)) (hs : 0 ≤ stepSize)
    (rrt : RRT ℝ) (o : Outcome)
    (h : RRT.generateRRT realOps rand (RRT.ctor stepSize maxIterations) start goal obstacles
      = some (rrt, o)) :
    ∀ (i : Nat) (node : Node ℝ), 0 < i → rrt.tree[i]? = some node →
      ∃ parent : Node ℝ, rrt.tree[node.parentIndex.toNat]? = some parent ∧
        distance realOps node.point parent.point ≤ stepSize := by
  have hP := generateRRTLoop_preserves realOps rand goal obstacles
    (fun s => s.stepSize = stepSize ∧
      ∀ (i : Nat) (node : Node ℝ), 0 < i → s.tree[i]? = some node →
        ∃ parent : Node ℝ, s.tree[node.parentIndex.toNat]? = some parent ∧
          distance realOps node.point parent.point ≤ stepSize)
    ?_ _ 0 _ rrt o ?_ h
  · exact hP.2
  · intro s q s1 b ⟨hst, hinv⟩ hit
    have hs1 : s1.stepSize = stepSize := by
      rw [(iteration_outcome realOps s goal obstacles q s1 b hit).1]; exact hst
    refine ⟨hs1, ?_⟩
    rcases iteration_tree realOps s goal obstacles q s1 b hit with ht | ⟨k, nd, hk, _, _, ht⟩
    · rw [ht]; exact hinv
    · have hklt : k < s.tree.length := (List.getElem?_eq_some.mp hk).1
      rw [ht]
      intro i node hi hnode
      by_cases hlt : i < s.tree.length
      · rw [List.getElem?_append_left hlt] at hnode
        obtain ⟨parent, hpar, hd⟩ := hinv i node hi hnode
        have hplt := (List.getElem?_eq_some.mp hpar).1
        exact ⟨parent, by rw [List.getElem?_append_left hplt]; exact hpar, hd⟩
      · have hlen := (List.getElem?_eq_some.mp hnode).1
        simp only [List.length_append, List.length_singleton] at hlen
        have hi2 : i = s.tree.length := by omega
        subst hi2
        rw [List.getElem?_concat_length] at hnode
        simp only [Option.some.injEq] at hnode
        subst hnode
        refine ⟨nd, ?_, ?_⟩
        · simp only [Int.toNat_ofNat]
          rw [List.getElem?_append_left hklt]; exact hk
        · rw [distance_realOps_comm]
          have := (extend_realOps_distance s nd.point q (by rw [hst]; exact hs)).1
          rw [hst] at this
          exact this
  · refine ⟨rfl, ?_⟩
    intro i node hi hnode
    have hlen := (List.getElem?_eq_some.mp hnode).1
    simp [RRT.ctor] at hlen
    omega

end ExactNearestParent

end RRT2
